import Mathlib

/-!
LDAP organizational user management console: the bulk add-users engine.

Shallow embedding of `src/main.cpp`: the CSV line check `isProperlyFormatted`,
the add-users loop of `main` (menu choice 1), the directory helpers
`userExists` and `addLDAPUser`, and the outcome report that follows the loop.

Conventions of the embedding:

* a `std::string` is a list of characters (`Str`), one `Char` per `char`;
* a `char*` obtained with `c_str()` and given to a WinLDAP function is read by
  it as a C string: the characters before the first NUL (`c_str`);
* a `std::istringstream` / `std::ifstream` is an `IStream`: the unread
  characters together with the `eofbit` and `failbit` state flags;
* the LDAP server is an arbitrary state type `σ` with an arbitrary
  implementation `Ldap σ` of the WinLDAP calls the code makes;
* `int` values are `Int`; the column counter is a `Nat` (a line would need more
  than `2^31` commas for the C++ `int` to overflow).
-/

namespace LdapConsole

/-- A `std::string`. -/
abbrev Str := List Char

/-! ## Input streams and `std::getline` -/

/-- State of an input stream: unread characters and the two state bits the code
depends on. -/
structure IStream where
  buf : Str
  eofbit : Bool
  failbit : Bool
deriving DecidableEq, Repr

namespace IStream

/-- The stream `std::istringstream iss(line)`: all of `line` unread, state good. -/
def ofStr (s : Str) : IStream := { buf := s, eofbit := false, failbit := false }

/-- The member `good()`: no state bit is set. -/
def good (s : IStream) : Bool := !s.eofbit && !s.failbit

/-- The conversion `operator bool`, that is `!fail()`. -/
def ok (s : IStream) : Bool := !s.failbit

/-- Loop variant of the `while (getline(...))` loops: a stream that is not good
gives no further token, a good stream gives at most one token per unread
character and one more at the end of the data. -/
def fuel (s : IStream) : Nat := if s.good then s.buf.length + 1 else 0

end IStream

/-- Characters of `buf` up to the first `delim`: the extracted characters and,
when the delimiter was found, the characters after it (the delimiter itself is
extracted and dropped). `none` means the end of the data was reached first. -/
def takeUntil (delim : Char) : Str → Str × Option Str
  | [] => ([], none)
  | c :: cs =>
    if c = delim then ([], some cs)
    else ((c :: (takeUntil delim cs).1), (takeUntil delim cs).2)

/-- The call `std::getline(is, str, delim)`; returns the stream and the new
value of `str`.

* When the stream is not good the sentry fails: `failbit` is set and `str` is
  left as it was.
* Otherwise `str` is erased and characters are extracted up to and including
  the delimiter. Reaching the end of the data sets `eofbit`, and `failbit` too
  when no character at all was extracted. -/
def getline (is : IStream) (str : Str) (delim : Char) : IStream × Str :=
  if is.good then
    match takeUntil delim is.buf with
    | (tok, some rest) => ({ is with buf := rest }, tok)
    | (tok, none) => ({ buf := [], eofbit := true, failbit := tok.isEmpty }, tok)
  else ({ is with failbit := true }, str)

theorem takeUntil_rest_length (delim : Char) (buf rest : Str)
    (h : (takeUntil delim buf).2 = some rest) : rest.length < buf.length := by
  induction buf with
  | nil => simp [takeUntil] at h
  | cons c cs ih =>
    by_cases hc : c = delim
    · simp [takeUntil, hc] at h
      simp [← h]
    · simp only [takeUntil, hc, if_false] at h
      have := ih h
      simp only [List.length_cons]
      omega

/-- A successful `getline` strictly decreases the loop variant. -/
theorem getline_fuel_lt (is : IStream) (str : Str) (delim : Char)
    (h : (getline is str delim).1.ok = true) :
    (getline is str delim).1.fuel < is.fuel := by
  unfold getline at h ⊢
  by_cases hg : is.good = true
  · simp only [hg, if_true] at h ⊢
    rcases hres : takeUntil delim is.buf with ⟨tok, _ | rest⟩
    · have hg1 := hg
      simp only [IStream.good, Bool.and_eq_true, Bool.not_eq_true'] at hg1
      simp [IStream.fuel, IStream.good, hg1.1, hg1.2]
    · have hlt := takeUntil_rest_length delim is.buf rest (by rw [hres])
      have hg2 : ({ is with buf := rest } : IStream).good = true := by
        simpa [IStream.good] using hg
      simp only [IStream.fuel, hg, hg2, if_true]
      omega
  · simp [hg, IStream.ok] at h

/-! ## `isProperlyFormatted` (main.cpp 197-209) -/

/-- The loop `while (getline(iss, token, ',')) columnCount++;` and the value of
`columnCount` when it ends. -/
def countColumns (iss : IStream) (token : Str) (columnCount : Nat) : Nat :=
  if h : (getline iss token ',').1.ok = true then
    countColumns (getline iss token ',').1 (getline iss token ',').2 (columnCount + 1)
  else columnCount
termination_by iss.fuel
decreasing_by exact getline_fuel_lt iss token ',' h

/-- The function `isProperlyFormatted(line)`. -/
def isProperlyFormatted (line : Str) : Bool :=
  countColumns (IStream.ofStr line) [] 0 == 6

/-! ## Formatted extraction `iss >> str` -/

/-- The predicate `isspace` of the classic "C" locale. -/
def isSpace (c : Char) : Bool :=
  c == ' ' || c == '\t' || c == '\n' || c == '\r' || c.toNat == 11 || c.toNat == 12

/-- The call `is >> str` for a `std::string`: skip leading white space, then
extract characters up to the next white space (left unread) or the end of the
data. When the stream is not good, or holds nothing but white space, `failbit`
is set and `str` is left as it was. -/
def extractWord (is : IStream) (str : Str) : IStream × Str :=
  if is.good then
    match is.buf.dropWhile isSpace with
    | [] => ({ buf := [], eofbit := true, failbit := true }, str)
    | c :: cs =>
      match (c :: cs).dropWhile (fun x => !isSpace x) with
      | [] => ({ buf := [], eofbit := true, failbit := false },
               (c :: cs).takeWhile (fun x => !isSpace x))
      | r :: rs => ({ is with buf := r :: rs }, (c :: cs).takeWhile (fun x => !isSpace x))
  else ({ is with failbit := true }, str)

/-! ## The directory (WinLDAP) as an external collaborator -/

/-- The constant `LDAP_SUCCESS`. -/
def LDAP_SUCCESS : Int := 0

/-- The constant `LDAP_NO_SUCH_OBJECT`. -/
def LDAP_NO_SUCH_OBJECT : Int := 32

/-- The constant `LDAP_MOD_ADD`. -/
def LDAP_MOD_ADD : Nat := 0

/-- The constant `LDAP_SCOPE_BASE`. -/
def LDAP_SCOPE_BASE : Nat := 0

/-- The constant `LDAP_SCOPE_ONELEVEL`. -/
def LDAP_SCOPE_ONELEVEL : Nat := 1

/-- One `LDAPMod` record: operation, attribute type and its values. -/
structure LDAPMod where
  mod_op : Nat
  mod_type : Str
  mod_values : List Str
deriving DecidableEq, Repr

/-- The WinLDAP calls made by the code, over a server state `σ`. Nothing is
assumed about them: every call may answer anything and change the state in any
way.

* `ldap_search_ext_sA s base scope filter` gives the new state, the return code
  and the DNs of the entries of the result message (`ldap_count_entries` is the
  length of that list);
* `ldap_add_ext_sA s dn mods` and `ldap_delete_ext_sA s dn` give the new state
  and the return code;
* `ldap_err2stringA rc` is the text of a return code. -/
structure Ldap (σ : Type) where
  ldap_search_ext_sA : σ → Str → Nat → Str → σ × Int × List Str
  ldap_add_ext_sA : σ → Str → List LDAPMod → σ × Int
  ldap_delete_ext_sA : σ → Str → σ × Int
  ldap_err2stringA : Int → Str

/-- The NUL character, which ends a C string. -/
def NUL : Char := Char.ofNat 0

/-- The C string `s.c_str()` as the WinLDAP functions read it through the
`char*` they are given: the characters of `s` before its first NUL
character. -/
def c_str (s : Str) : Str := s.takeWhile (fun c => c ≠ NUL)

/-- The function `userExists(ldap, userDN)` (main.cpp 100-116): a base-scope
search for `userDN.c_str()`; true exactly when the search succeeds with at
least one entry. -/
def userExists {σ : Type} (L : Ldap σ) (ldap : σ) (userDN : Str) : σ × Bool :=
  let r := L.ldap_search_ext_sA ldap (c_str userDN) LDAP_SCOPE_BASE
    "(objectClass=inetOrgPerson)".toList
  (r.1, r.2.1 == LDAP_SUCCESS && decide (0 < r.2.2.length))

/-- The split of `fullName` made by `addLDAPUser` (main.cpp 28-31):
`iss >> firstName; getline(iss, lastName);`. -/
def splitFullName (fullName : Str) : Str × Str :=
  let r1 := extractWord (IStream.ofStr fullName) []
  let r2 := getline r1.1 [] '\n'
  (r1.2, r2.2)

/-- The DN built by `addLDAPUser` (main.cpp 34). -/
def newUserDN (id : Str) : Str :=
  "cn=".toList ++ id ++ ",ou=users,o=c_plusplus_project".toList

/-- The array `mods` filled by `addLDAPUser` (main.cpp 41-92), without its
terminating null pointer. The value arrays of main.cpp 41-48 hold the `c_str()`
pointers of the strings, so each value is the C string of its string; the
attribute types and the object classes are literals. -/
def addLDAPUserMods (id fullName phoneNumber email department jobDescription : Str) :
    List LDAPMod :=
  [ { mod_op := LDAP_MOD_ADD, mod_type := "cn".toList, mod_values := [c_str id] },
    { mod_op := LDAP_MOD_ADD, mod_type := "sn".toList,
      mod_values := [c_str (splitFullName fullName).2] },
    { mod_op := LDAP_MOD_ADD, mod_type := "givenName".toList,
      mod_values := [c_str (splitFullName fullName).1] },
    { mod_op := LDAP_MOD_ADD, mod_type := "mail".toList, mod_values := [c_str email] },
    { mod_op := LDAP_MOD_ADD, mod_type := "objectClass".toList,
      mod_values := ["inetOrgPerson".toList, "organizationalPerson".toList,
                     "person".toList, "top".toList] },
    { mod_op := LDAP_MOD_ADD, mod_type := "ou".toList, mod_values := [c_str department] },
    { mod_op := LDAP_MOD_ADD, mod_type := "telephoneNumber".toList,
      mod_values := [c_str phoneNumber] },
    { mod_op := LDAP_MOD_ADD, mod_type := "description".toList,
      mod_values := [c_str jobDescription] } ]

/-- The function `addLDAPUser` (main.cpp 23-97): one `ldap_add_ext_sA` call at
`newUserDN.c_str()` with the eight attributes; returns its return code. -/
def addLDAPUser {σ : Type} (L : Ldap σ) (ldap : σ)
    (id fullName phoneNumber email department jobDescription : Str) : σ × Int :=
  L.ldap_add_ext_sA ldap (c_str (newUserDN id))
    (addLDAPUserMods id fullName phoneNumber email department jobDescription)

/-! ## The add-users loop of `main` (main.cpp 447-510) -/

/-- The local `struct UserResult`: a failed id and the reason. -/
structure UserResult where
  id : Str
  error : Str
deriving DecidableEq, Repr

/-- A call of one of the two directory helpers, with its arguments. -/
inductive DirCall where
  | userExists (userDN : Str)
  | addLDAPUser (id fullName phoneNumber email department jobDescription : Str)
deriving DecidableEq, Repr

/-- The two parse errors the loop writes to `cerr`. -/
inductive ParseError where
  /-- "Error: CSV file header is incorrect. Returning to menu." -/
  | headerIncorrect
  /-- "Error: File is not properly comma-delimited. Returning to menu." -/
  | notCommaDelimited
deriving DecidableEq, Repr

/-- The variables of the loop, the server state, and two logs kept for the
statements below: the directory helper calls made so far and the parse errors
written so far. -/
structure LoopState (σ : Type) where
  ldap : σ
  headerChecked : Bool
  properFormat : Bool
  hasValidDataRow : Bool
  results : List UserResult
  addedUsers : List Str
  calls : List DirCall
  cerr : List ParseError

/-- The variables as declared before the loop (main.cpp 447-459). -/
def LoopState.init {σ : Type} (ldap : σ) : LoopState σ :=
  { ldap := ldap, headerChecked := false, properFormat := true, hasValidDataRow := false,
    results := [], addedUsers := [], calls := [], cerr := [] }

/-- The variables once the header line has been accepted (main.cpp 473). -/
def LoopState.pastHeader {σ : Type} (ldap : σ) : LoopState σ :=
  { ldap := ldap, headerChecked := true, properFormat := true, hasValidDataRow := false,
    results := [], addedUsers := [], calls := [], cerr := [] }

/-- The header literal of main.cpp 467. -/
def csvHeader : Str := "id,full_name,phone_number,email,department,job_description".toList

/-- The value of `basePath` in `main` (main.cpp 337). -/
def main_basePath : Str := "o=c_plusplus_project".toList

/-- The condition of main.cpp 488-489 and the six strings it fills:
`getline(getline(iss, id, ','), fullName, ',') && getline(getline(getline(getline(iss,
phoneNumber, ','), email, ','), department, ','), jobDescription, ',')`. -/
def extractFields (line : Str) : Option (Str × Str × Str × Str × Str × Str) :=
  let r1 := getline (IStream.ofStr line) [] ','
  let r2 := getline r1.1 [] ','
  if r2.1.ok then
    let r3 := getline r2.1 [] ','
    let r4 := getline r3.1 [] ','
    let r5 := getline r4.1 [] ','
    let r6 := getline r5.1 [] ','
    if r6.1.ok then some (r1.2, r2.2, r3.2, r4.2, r5.2, r6.2) else none
  else none

/-- The DN built in the loop (main.cpp 491). -/
def userDN (basePath id : Str) : Str :=
  "cn=".toList ++ id ++ ",ou=users,".toList ++ basePath

/-- The text pushed at main.cpp 494. -/
def userAlreadyExists : Str := "User already exists".toList

/-- The body of the `if` at main.cpp 491-508, for one extracted record. -/
def addUser {σ : Type} (L : Ldap σ) (basePath : Str) (st : LoopState σ)
    (id fullName phoneNumber email department jobDescription : Str) : LoopState σ :=
  let e := userExists L st.ldap (userDN basePath id)
  let st1 := { st with ldap := e.1, calls := st.calls ++ [DirCall.userExists (userDN basePath id)] }
  if e.2 then
    { st1 with results := st1.results ++ [{ id := id, error := userAlreadyExists }] }
  else
    let a := addLDAPUser L st1.ldap id fullName phoneNumber email department jobDescription
    let st2 := { st1 with
      ldap := a.1,
      calls := st1.calls ++
        [DirCall.addLDAPUser id fullName phoneNumber email department jobDescription] }
    if a.2 ≠ LDAP_SUCCESS then
      { st2 with results := st2.results ++ [{ id := id, error := L.ldap_err2stringA a.2 }] }
    else
      { st2 with hasValidDataRow := true, addedUsers := st2.addedUsers ++ [id] }

/-- One iteration of the loop body (main.cpp 464-509) on the line just read.
The Boolean is true when the iteration ends in `break`. -/
def loopBody {σ : Type} (L : Ldap σ) (basePath : Str) (st : LoopState σ) (line : Str) :
    Bool × LoopState σ :=
  if !st.headerChecked then
    if line ≠ csvHeader then
      (true, { st with cerr := st.cerr ++ [ParseError.headerIncorrect], properFormat := false })
    else
      (false, { st with headerChecked := true })
  else if !isProperlyFormatted line then
    (true, { st with cerr := st.cerr ++ [ParseError.notCommaDelimited], properFormat := false })
  else
    match extractFields line with
    | some (id, fullName, phoneNumber, email, department, jobDescription) =>
      (false, addUser L basePath st id fullName phoneNumber email department jobDescription)
    | none => (false, st)

/-- The loop `while (getline(file, line)) { ... }` over the lines that
`getline` reads from the file, in file order. -/
def addUsersLoop {σ : Type} (L : Ldap σ) (basePath : Str) :
    LoopState σ → List Str → LoopState σ
  | st, [] => st
  | st, line :: rest =>
    if (loopBody L basePath st line).1 then (loopBody L basePath st line).2
    else addUsersLoop L basePath (loopBody L basePath st line).2 rest

set_option linter.unusedVariables false in
/-- The lines `while (getline(file, line))` reads from a stream, up to the first
failing `getline`. -/
def readLines (file : IStream) (line : Str) : List Str :=
  if h : (getline file line '\n').1.ok = true then
    (getline file line '\n').2 :: readLines (getline file line '\n').1 (getline file line '\n').2
  else []
termination_by file.fuel
decreasing_by exact getline_fuel_lt file line '\n' h

/-! ## The outcome report (main.cpp 513-575) -/

/-- The order `operator<` of `std::string`, which `std::map` sorts its keys by:
lexicographic on the character codes, a proper prefix first. -/
def strLess : Str → Str → Bool
  | _, [] => false
  | [], _ :: _ => true
  | a :: as, b :: bs =>
    if a.toNat < b.toNat then true
    else if b.toNat < a.toNat then false
    else strLess as bs

/-- The statement `clusteredErrors[key].push_back(v)` on a
`std::map<string, vector<string>>`, kept as the list of its pairs in key order:
the vector of an existing key is extended, a new key is inserted at its sorted
place with a one-element vector. -/
def mapPushBack (key v : Str) : List (Str × List Str) → List (Str × List Str)
  | [] => [(key, [v])]
  | (k, vs) :: m =>
    if strLess key k then (key, [v]) :: (k, vs) :: m
    else if strLess k key then (k, vs) :: mapPushBack key v m
    else (k, vs ++ [v]) :: m

/-- The loop of main.cpp 546-549 filling `clusteredErrors`. -/
def clusterErrors : List UserResult → List (Str × List Str) → List (Str × List Str)
  | [], m => m
  | r :: rs, m => clusterErrors rs (mapPushBack r.error r.id m)

/-- The loop of main.cpp 531-538: the value of `sameError` when it ends. -/
def sameErrorLoop (commonError : Str) : List UserResult → Bool
  | [] => true
  | r :: rs => if r.error ≠ commonError then false else sameErrorLoop commonError rs

/-- The five shapes of output of main.cpp 513-575. -/
inductive Report where
  /-- "Error: CSV file does not contain any valid data rows. Returning to menu." -/
  | noValidDataRows
  /-- "All users successfully added: " followed by the ids. -/
  | allAdded (users : List Str)
  /-- "All users can't be added due to the same reason: " and the reason. -/
  | sameReason (commonError : Str)
  /-- "All users can't be added due to the following reasons:" then one line
  "Reason: r - Users: ids" per entry of the map, in map order. -/
  | clustered (clusters : List (Str × List Str))
  /-- "Some users couldn't be added:", one line per failure, then
  "Successfully added users: " followed by the ids. -/
  | someNotAdded (failures : List UserResult) (added : List Str)
deriving DecidableEq, Repr

/-- The `if` / `else if` chain of main.cpp 514-575. -/
def report (properFormat hasValidDataRow : Bool) (results : List UserResult)
    (addedUsers : List Str) : Report :=
  if properFormat && !hasValidDataRow then Report.noValidDataRows
  else
    match results with
    | [] => Report.allAdded addedUsers
    | r0 :: rs =>
      if addedUsers.isEmpty then
        if sameErrorLoop r0.error (r0 :: rs) then Report.sameReason r0.error
        else Report.clustered (clusterErrors (r0 :: rs) [])
      else Report.someNotAdded (r0 :: rs) addedUsers

/-- Menu choice 1 once the file is open: the loop over the lines of the file,
from the initial variables. -/
def addUsers {σ : Type} (L : Ldap σ) (basePath : Str) (ldap : σ) (lines : List Str) :
    LoopState σ :=
  addUsersLoop L basePath (LoopState.init ldap) lines

/-- The report printed after the loop for the final loop variables. -/
def LoopState.report {σ : Type} (st : LoopState σ) : Report :=
  LdapConsole.report st.properFormat st.hasValidDataRow st.results st.addedUsers

/-- Menu choice 1 on the content of the opened file. -/
def addUsersFromFile {σ : Type} (L : Ldap σ) (basePath : Str) (ldap : σ) (content : Str) :
    LoopState σ :=
  addUsers L basePath ldap (readLines (IStream.ofStr content) [])

/-! ## The tokens a `getline` loop reads

`tokens d buf` is the list of strings that repeated `getline(is, str, d)` calls
give on a good stream holding `buf`, as a structural recursion: the pieces
between delimiters, without a last empty piece. -/

/-- The tokens of `buf`, `cur` being the part of the current token already
read. -/
def tokensAux (d : Char) : Str → Str → List Str
  | cur, [] => if cur = [] then [] else [cur]
  | cur, c :: cs => if c = d then cur :: tokensAux d [] cs else tokensAux d (cur ++ [c]) cs

/-- The tokens of `buf` for the delimiter `d`. -/
def tokens (d : Char) (buf : Str) : List Str := tokensAux d [] buf

/-- The tokens still to be read from a stream: none once a state bit is set. -/
def IStream.remaining (d : Char) (is : IStream) : List Str :=
  if is.good then tokens d is.buf else []

theorem tokensAux_takeUntil (d : Char) (buf cur : Str) :
    tokensAux d cur buf =
      match takeUntil d buf with
      | (tok, some rest) => (cur ++ tok) :: tokensAux d [] rest
      | (tok, none) => if cur ++ tok = [] then [] else [cur ++ tok] := by
  induction buf generalizing cur with
  | nil => simp [tokensAux, takeUntil]
  | cons c cs ih =>
    by_cases hc : c = d
    · simp [tokensAux, takeUntil, hc]
    · simp only [tokensAux, takeUntil, hc, if_false]
      rw [ih (cur ++ [c])]
      rcases takeUntil d cs with ⟨tok, _ | rest⟩ <;> simp

theorem getline_remaining_nil (d : Char) (is : IStream) (str : Str)
    (h : is.remaining d = []) :
    (getline is str d).1.ok = false ∧ (getline is str d).1.remaining d = [] := by
  unfold IStream.remaining at h
  unfold getline
  by_cases hg : is.good = true
  · simp only [hg, if_true] at h ⊢
    unfold tokens at h
    rw [tokensAux_takeUntil] at h
    rcases hres : takeUntil d is.buf with ⟨tok, _ | rest⟩
    · rw [hres] at h
      by_cases ht : tok = []
      · subst ht
        simp [IStream.ok, IStream.remaining, IStream.good]
      · simp [ht] at h
    · rw [hres] at h
      simp at h
  · rw [if_neg hg]
    have hg1 : ({ is with failbit := true } : IStream).good = false := by
      simp [IStream.good]
    simp [IStream.ok, IStream.remaining, hg1]

theorem getline_remaining_cons (d : Char) (is : IStream) (str t : Str) (ts : List Str)
    (h : is.remaining d = t :: ts) :
    (getline is str d).2 = t ∧ (getline is str d).1.ok = true ∧
      (getline is str d).1.remaining d = ts := by
  unfold IStream.remaining at h
  unfold getline
  by_cases hg : is.good = true
  · simp only [hg, if_true] at h ⊢
    unfold tokens at h
    rw [tokensAux_takeUntil] at h
    have hg1 := hg
    simp only [IStream.good, Bool.and_eq_true, Bool.not_eq_true'] at hg1
    rcases hres : takeUntil d is.buf with ⟨tok, _ | rest⟩
    · rw [hres] at h
      by_cases ht : tok = []
      · simp [ht] at h
      · simp only [List.nil_append, ht, if_false, List.cons.injEq] at h
        simp [IStream.ok, IStream.remaining, IStream.good, h.1.symm, h.2.symm, ht]
    · rw [hres] at h
      simp only [List.nil_append, List.cons.injEq] at h
      simp [IStream.ok, IStream.remaining, IStream.good, hg1.1, hg1.2, h.1.symm, h.2.symm,
        tokens]
  · simp [hg] at h

theorem remaining_ofStr (d : Char) (line : Str) :
    (IStream.ofStr line).remaining d = tokens d line := by
  simp [IStream.remaining, IStream.ofStr, IStream.good]

theorem countColumns_eq (l : List Str) :
    ∀ (iss : IStream) (token : Str) (n : Nat), iss.remaining ',' = l →
      countColumns iss token n = n + l.length := by
  induction l with
  | nil =>
    intro iss token n h
    rw [countColumns]
    simp [(getline_remaining_nil ',' iss token h).1]
  | cons t ts ih =>
    intro iss token n h
    obtain ⟨_, hok, hrem⟩ := getline_remaining_cons ',' iss token t ts h
    rw [countColumns]
    simp only [hok, dif_pos]
    rw [ih _ _ _ hrem]
    simp only [List.length_cons]
    omega

theorem readLines_eq (l : List Str) :
    ∀ (file : IStream) (line : Str), file.remaining '\n' = l → readLines file line = l := by
  induction l with
  | nil =>
    intro file line h
    rw [readLines]
    simp [(getline_remaining_nil '\n' file line h).1]
  | cons t ts ih =>
    intro file line h
    obtain ⟨e, hok, hrem⟩ := getline_remaining_cons '\n' file line t ts h
    rw [readLines]
    simp only [hok, dif_pos]
    rw [e, ih _ _ hrem]

/-- The lines read from a file are the tokens of its content for the newline
delimiter, so every statement below about a list of lines holds for the lines of
any file content. -/
theorem addUsersFromFile_eq {σ : Type} (L : Ldap σ) (basePath : Str) (ldap : σ)
    (content : Str) :
    addUsersFromFile L basePath ldap content
      = addUsers L basePath ldap (tokens '\n' content) := by
  unfold addUsersFromFile
  rw [readLines_eq (tokens '\n' content) _ _ (remaining_ofStr '\n' content)]

/-- The check counts the tokens that `getline` reads from the line. -/
theorem isProperlyFormatted_eq (line : Str) :
    isProperlyFormatted line = decide ((tokens ',' line).length = 6) := by
  unfold isProperlyFormatted
  rw [countColumns_eq (tokens ',' line) _ _ _ (remaining_ofStr ',' line), Bool.eq_iff_iff]
  simp

/-- On a line with at least six tokens the extraction succeeds and fills the six
strings with the first six tokens. -/
theorem extractFields_of_tokens (line a b c d e f : Str) (rest : List Str)
    (h : tokens ',' line = a :: b :: c :: d :: e :: f :: rest) :
    extractFields line = some (a, b, c, d, e, f) := by
  have h0 := remaining_ofStr ',' line
  rw [h] at h0
  obtain ⟨e1, _, r1⟩ := getline_remaining_cons ',' _ [] _ _ h0
  obtain ⟨e2, k2, r2⟩ := getline_remaining_cons ',' _ [] _ _ r1
  obtain ⟨e3, _, r3⟩ := getline_remaining_cons ',' _ [] _ _ r2
  obtain ⟨e4, _, r4⟩ := getline_remaining_cons ',' _ [] _ _ r3
  obtain ⟨e5, _, r5⟩ := getline_remaining_cons ',' _ [] _ _ r4
  obtain ⟨e6, k6, _⟩ := getline_remaining_cons ',' _ [] _ _ r5
  simp only [extractFields, k2, k6, if_true, e1, e2, e3, e4, e5, e6]

/-- A line that passes the check has exactly six tokens, and the extraction
fills the six strings with them. -/
theorem extractFields_of_isProperlyFormatted (line : Str)
    (h : isProperlyFormatted line = true) :
    ∃ a b c d e f, tokens ',' line = [a, b, c, d, e, f] ∧
      extractFields line = some (a, b, c, d, e, f) := by
  rw [isProperlyFormatted_eq] at h
  have hl : (tokens ',' line).length = 6 := by simpa using h
  match hm : tokens ',' line, hl with
  | [a, b, c, d, e, f], _ =>
    exact ⟨a, b, c, d, e, f, rfl, extractFields_of_tokens line a b c d e f [] hm⟩

/-! ## A small directory on which the code is run in the examples -/

/-- The id of the record on a data line: the first string the extraction of
main.cpp 488 fills (empty when the extraction fails). -/
def recordId (line : Str) : Str :=
  match extractFields line with
  | some (id, _) => id
  | none => []

/-- A directory that is the list of the DNs present in it: a base search finds a
DN exactly when it is present, an add of a present DN is refused with code 68
(already exists) and any other add succeeds, a delete of an absent DN is
refused with code 32. Like the WinLDAP functions, which are given a `char*`, it
reads a DN as a C string. -/
def listDir : Ldap (List Str) where
  ldap_search_ext_sA := fun s base _ _ =>
    if c_str base ∈ s then (s, 0, [c_str base]) else (s, 32, [])
  ldap_add_ext_sA := fun s dn _ => if c_str dn ∈ s then (s, 68) else (c_str dn :: s, 0)
  ldap_delete_ext_sA := fun s dn =>
    if c_str dn ∈ s then (s.erase (c_str dn), 0) else (s, 32)
  ldap_err2stringA := fun rc =>
    if rc = 0 then "Success".toList
    else if rc = 68 then "Already Exists".toList
    else if rc = 32 then "No Such Object".toList
    else "Other".toList

/-- A well-formed data line for the user `u1`. -/
def lineU1 : Str := "u1,Ann Lee,555-0101,ann@example.org,Sales,Clerk".toList

/-- A well-formed data line for the user `u2`. -/
def lineU2 : Str := "u2,Bob Ray,555-0102,bob@example.org,IT,Admin".toList

/-- A data line of three fields. -/
def lineShort : Str := "u3,Cy Poe,555-0103".toList

/-- A directory in which a successful add makes `userExists` true for the added
DN from then on: `userExists` is true for a DN right after a successful
`ldap_add_ext_sA` at that DN, and once true for a DN it stays true across later
`ldap_add_ext_sA` calls (successful or not) and `userExists` searches. -/
def AddsPersist {σ : Type} (L : Ldap σ) : Prop :=
  (∀ s dn mods, (L.ldap_add_ext_sA s dn mods).2 = LDAP_SUCCESS →
      (userExists L (L.ldap_add_ext_sA s dn mods).1 dn).2 = true) ∧
  (∀ s dn dn1 mods, (userExists L s dn).2 = true →
      (userExists L (L.ldap_add_ext_sA s dn1 mods).1 dn).2 = true) ∧
  (∀ s dn dn1, (userExists L s dn).2 = true →
      (userExists L (userExists L s dn1).1 dn).2 = true)

/-- The vector that a `std::map` in list form holds for `key`, when it has
one. -/
def mapFind (key : Str) : List (Str × List Str) → Option (List Str)
  | [] => none
  | (k, vs) :: m => if k = key then some vs else mapFind key m

/-- The keys of a `std::map` in list form are in strictly ascending order. -/
def KeysAscending (m : List (Str × List Str)) : Prop :=
  (m.map Prod.fst).Pairwise (fun a b => strLess a b = true)

/-- The distinct failure reasons of a sequence of failures, in the order in
which they first appear (the cluster order the specification words). -/
def firstSeenReasons : List UserResult → List Str
  | [] => []
  | r :: rs => r.error :: (firstSeenReasons rs).filter (fun e => e ≠ r.error)

/-- The ids of the failures with the given reason, in the order of the
sequence. -/
def idsWithReason (reason : Str) (results : List UserResult) : List Str :=
  (results.filter (fun r => r.error = reason)).map UserResult.id

/-- A data line of six fields whose first field, the id, is empty. -/
def lineNoId : Str := ",Ann Lee,555-0101,ann@example.org,Sales,Clerk".toList

/-- The first comma-separated field of a line: its characters before the first
comma. -/
def firstField (line : Str) : Str := line.takeWhile (fun c => c ≠ ',')

/-- The given name as the specification words it: the first
whitespace-delimited token of `fullName`. -/
def givenNameOf (fullName : Str) : Str :=
  (fullName.dropWhile isSpace).takeWhile (fun c => !isSpace c)

/-- The surname as the specification words it: the remainder of `fullName`
after its first whitespace-delimited token. -/
def surnameOf (fullName : Str) : Str :=
  (fullName.dropWhile isSpace).dropWhile (fun c => !isSpace c)

/-- The loop of `deleteAllLDAPUsers` (main.cpp 149-163) over the DNs of the
entries found: each entry is deleted and `rc` takes the return code of that
delete; a failed delete is reported on `cerr` and the loop goes on. Gives the
directory, the last value of `rc` and the DNs reported as failed. -/
def deleteEntries {σ : Type} (L : Ldap σ) : σ → Int → List Str → List Str → σ × Int × List Str
  | ldap, rc, failed, [] => (ldap, rc, failed)
  | ldap, _, failed, dn :: rest =>
    if (L.ldap_delete_ext_sA ldap dn).2 ≠ LDAP_SUCCESS then
      deleteEntries L (L.ldap_delete_ext_sA ldap dn).1 (L.ldap_delete_ext_sA ldap dn).2
        (failed ++ [dn]) rest
    else
      deleteEntries L (L.ldap_delete_ext_sA ldap dn).1 (L.ldap_delete_ext_sA ldap dn).2
        failed rest

/-- The function `deleteAllLDAPUsers(ldap, basePath)` (main.cpp 119-169): a
one-level search under `ou=users,<basePath>`; the search error, or success when
no entry is found, is returned at once; otherwise every entry found is deleted
and the final `rc` is returned. Gives the directory, the returned code and the
DNs whose delete was reported as failed. -/
def deleteAllLDAPUsers {σ : Type} (L : Ldap σ) (ldap : σ) (basePath : Str) :
    σ × Int × List Str :=
  let r := L.ldap_search_ext_sA ldap (c_str ("ou=users,".toList ++ basePath))
    LDAP_SCOPE_ONELEVEL "(objectClass=inetOrgPerson)".toList
  if r.2.1 ≠ LDAP_SUCCESS then (r.1, r.2.1, [])
  else if r.2.2.length = 0 then (r.1, r.2.1, [])
  else deleteEntries L r.1 r.2.1 [] r.2.2

/-- A directory like `listDir` in which one entry, `locked`, cannot be
deleted: its delete is refused with code 50 (insufficient rights). A one-level
search finds every entry. -/
def lockDir (locked : Str) : Ldap (List Str) where
  ldap_search_ext_sA := fun s base scope _ =>
    if scope = LDAP_SCOPE_BASE then
      (if base ∈ s then (s, 0, [base]) else (s, 32, []))
    else (s, 0, s)
  ldap_add_ext_sA := fun s dn _ => if dn ∈ s then (s, 68) else (dn :: s, 0)
  ldap_delete_ext_sA := fun s dn =>
    if dn = locked then (s, 50) else if dn ∈ s then (s.erase dn, 0) else (s, 32)
  ldap_err2stringA := fun rc =>
    if rc = 0 then "Success".toList
    else if rc = 68 then "Already Exists".toList
    else if rc = 32 then "No Such Object".toList
    else "Other".toList

/-- The eight attributes of the entry of a record as the specification maps
them, each added with `LDAP_MOD_ADD`, in the order of the array `mods`. -/
def recordEntry (id fullName phoneNumber email department jobDescription : Str) :
    List LDAPMod :=
  [LDAPMod.mk LDAP_MOD_ADD "cn".toList [id],
   LDAPMod.mk LDAP_MOD_ADD "sn".toList [surnameOf fullName],
   LDAPMod.mk LDAP_MOD_ADD "givenName".toList [givenNameOf fullName],
   LDAPMod.mk LDAP_MOD_ADD "mail".toList [email],
   LDAPMod.mk LDAP_MOD_ADD "objectClass".toList
     ["inetOrgPerson".toList, "organizationalPerson".toList, "person".toList, "top".toList],
   LDAPMod.mk LDAP_MOD_ADD "ou".toList [department],
   LDAPMod.mk LDAP_MOD_ADD "telephoneNumber".toList [phoneNumber],
   LDAPMod.mk LDAP_MOD_ADD "description".toList [jobDescription]]

/-- An id of three characters, the second of which is NUL. -/
def idNul : Str := ['u', NUL, 'x']

/-- A well-formed data line whose id is `idNul`. -/
def lineNul : Str := idNul ++ ",Ann Lee,555-0101,ann@example.org,Sales,Clerk".toList

/-- The number of commas of a line. -/
def commas (line : Str) : Nat := line.count ','

/-- The DNs of the `userExists` calls of a call log, in call order. -/
def userExistsCalls : List DirCall → List Str
  | [] => []
  | DirCall.userExists dn :: cs => dn :: userExistsCalls cs
  | DirCall.addLDAPUser _ _ _ _ _ _ :: cs => userExistsCalls cs

/-- The ids of the `addLDAPUser` calls of a call log, in call order. -/
def addLDAPUserCalls : List DirCall → List Str
  | [] => []
  | DirCall.userExists _ :: cs => addLDAPUserCalls cs
  | DirCall.addLDAPUser id _ _ _ _ _ :: cs => id :: addLDAPUserCalls cs

/-- The ids paired with `true` in a list of (id, succeeded) pairs, in order. -/
def succeededIds (outcomes : List (Str × Bool)) : List Str :=
  (outcomes.filter (fun o => o.2)).map (fun o => o.1)

/-- The ids paired with `false` in a list of (id, succeeded) pairs, in order. -/
def failedIds (outcomes : List (Str × Bool)) : List Str :=
  (outcomes.filter (fun o => !o.2)).map (fun o => o.1)

/-- The loop body with the two stream computations replaced by their outcome in
terms of `tokens`; equal to `loopBody` (`loopBody_eq_loopBodyTok`), and
evaluated by unfolding alone. -/
def loopBodyTok {σ : Type} (L : Ldap σ) (basePath : Str) (st : LoopState σ) (line : Str) :
    Bool × LoopState σ :=
  if !st.headerChecked then
    if line ≠ csvHeader then
      (true, { st with cerr := st.cerr ++ [ParseError.headerIncorrect], properFormat := false })
    else
      (false, { st with headerChecked := true })
  else
    match tokens ',' line with
    | [id, fullName, phoneNumber, email, department, jobDescription] =>
      (false, addUser L basePath st id fullName phoneNumber email department jobDescription)
    | _ =>
      (true, { st with cerr := st.cerr ++ [ParseError.notCommaDelimited],
                       properFormat := false })

/-- The loop over `loopBodyTok`. -/
def addUsersLoopTok {σ : Type} (L : Ldap σ) (basePath : Str) :
    LoopState σ → List Str → LoopState σ
  | st, [] => st
  | st, line :: rest =>
    if (loopBodyTok L basePath st line).1 then (loopBodyTok L basePath st line).2
    else addUsersLoopTok L basePath (loopBodyTok L basePath st line).2 rest

/-! ## C strings -/

theorem c_str_cons_nul (cs : Str) : c_str (NUL :: cs) = [] := by
  simp [c_str, List.takeWhile_cons]

theorem c_str_cons_ne (c : Char) (cs : Str) (hc : c ≠ NUL) :
    c_str (c :: cs) = c :: c_str cs := by
  simp [c_str, List.takeWhile_cons, hc]

theorem c_str_idem (s : Str) : c_str (c_str s) = c_str s := by
  induction s with
  | nil => rfl
  | cons c cs ih =>
    by_cases hc : c = NUL
    · rw [hc, c_str_cons_nul]
      rfl
    · rw [c_str_cons_ne c cs hc, c_str_cons_ne c _ hc, ih]

/-- A string without a NUL character is its own C string. -/
theorem c_str_of_not_mem (s : Str) (h : NUL ∉ s) : c_str s = s := by
  induction s with
  | nil => rfl
  | cons c cs ih =>
    rw [List.mem_cons, not_or] at h
    rw [c_str_cons_ne c cs (fun e => h.1 e.symm), ih h.2]

theorem userExists_c_str {σ : Type} (L : Ldap σ) (ldap : σ) (dn : Str) :
    userExists L ldap (c_str dn) = userExists L ldap dn := by
  simp only [userExists, c_str_idem]

/-! ## Facts about single iterations -/

/-- No token is open at the end of `buf`: its last character is the delimiter,
or it is empty and so is the token being read. -/
def endsClosed (d : Char) (cur buf : Str) : Bool :=
  match buf.getLast? with
  | some c => c == d
  | none => cur.isEmpty

theorem endsClosed_cons_cons (d : Char) (cur cur1 : Str) (c x : Char) (xs : Str) :
    endsClosed d cur (c :: x :: xs) = endsClosed d cur1 (x :: xs) := by
  unfold endsClosed
  rw [List.getLast?_cons_cons]
  obtain ⟨y, hy⟩ : ∃ y, (x :: xs).getLast? = some y :=
    ⟨_, List.getLast?_eq_getLast _ (by simp)⟩
  rw [hy]

theorem tokensAux_length (d : Char) (buf cur : Str) :
    (tokensAux d cur buf).length = buf.count d + (if endsClosed d cur buf then 0 else 1) := by
  induction buf generalizing cur with
  | nil => cases cur <;> simp [tokensAux, endsClosed]
  | cons c cs ih =>
    by_cases hc : c = d
    · subst hc
      rw [tokensAux, if_pos rfl, List.length_cons, ih]
      cases cs with
      | nil => simp [endsClosed]
      | cons x xs =>
        rw [endsClosed_cons_cons c cur [] c x xs, List.count_cons_self]
        omega
    · rw [tokensAux, if_neg hc, ih]
      have hcount : List.count d (c :: cs) = List.count d cs := by
        rw [List.count_cons]
        simp [hc]
      rw [hcount]
      cases cs with
      | nil => simp [endsClosed, hc]
      | cons x xs => rw [endsClosed_cons_cons d cur (cur ++ [c]) c x xs]

/-- What the check accepts, in terms of commas: five commas and a last
character that is not a comma, or six commas the last of which ends the
line. -/
theorem isProperlyFormatted_iff_commas (line : Str) :
    isProperlyFormatted line = true ↔
      (commas line = 5 ∧ line.getLast? ≠ some ',') ∨
      (commas line = 6 ∧ line.getLast? = some ',') := by
  rw [isProperlyFormatted_eq, tokens, decide_eq_true_iff, tokensAux_length, commas]
  rcases hl : line.getLast? with _ | c
  · have : line = [] := by simpa using hl
    subst this
    simp [endsClosed]
  · by_cases hc : c = ','
    · simp [endsClosed, hl, hc]
    · simp [endsClosed, hl, hc]

theorem loopBody_header_ok {σ : Type} (L : Ldap σ) (basePath : Str) (st : LoopState σ)
    (h : st.headerChecked = false) :
    loopBody L basePath st csvHeader = (false, { st with headerChecked := true }) := by
  simp [loopBody, h]

theorem loopBody_header_bad {σ : Type} (L : Ldap σ) (basePath : Str) (st : LoopState σ)
    (line : Str) (h : st.headerChecked = false) (hne : line ≠ csvHeader) :
    loopBody L basePath st line =
      (true, { st with cerr := st.cerr ++ [ParseError.headerIncorrect],
                       properFormat := false }) := by
  simp [loopBody, h, hne]

theorem loopBody_malformed {σ : Type} (L : Ldap σ) (basePath : Str) (st : LoopState σ)
    (line : Str) (h : st.headerChecked = true) (hbad : isProperlyFormatted line = false) :
    loopBody L basePath st line =
      (true, { st with cerr := st.cerr ++ [ParseError.notCommaDelimited],
                       properFormat := false }) := by
  simp [loopBody, h, hbad]

theorem loopBody_record {σ : Type} (L : Ldap σ) (basePath : Str) (st : LoopState σ)
    (line a b c d e f : Str) (h : st.headerChecked = true)
    (ht : tokens ',' line = [a, b, c, d, e, f]) :
    loopBody L basePath st line = (false, addUser L basePath st a b c d e f) := by
  have hok : isProperlyFormatted line = true := by
    rw [isProperlyFormatted_eq, ht]
    rfl
  simp [loopBody, h, hok, extractFields_of_tokens line a b c d e f [] ht]

theorem recordId_of_tokens (line a b c d e f : Str)
    (ht : tokens ',' line = [a, b, c, d, e, f]) : recordId line = a := by
  simp [recordId, extractFields_of_tokens line a b c d e f [] ht]

theorem addUsers_header {σ : Type} (L : Ldap σ) (basePath : Str) (ldap : σ)
    (dataLines : List Str) :
    addUsers L basePath ldap (csvHeader :: dataLines) =
      addUsersLoop L basePath (LoopState.pastHeader ldap) dataLines := by
  simp [addUsers, addUsersLoop, loopBody_header_ok, LoopState.init, LoopState.pastHeader]

/-! ## C1: the column check -/

/-- C1, evaluated on the code: a line of seven comma-separated fields the last
of which is empty (six commas) is accepted by `isProperlyFormatted`, and a line
of six comma-separated fields the last of which is empty (five commas) is
rejected. -/
theorem isProperlyFormatted_trailing_comma :
    isProperlyFormatted "a,b,c,d,e,f,".toList = true ∧ commas "a,b,c,d,e,f,".toList = 6 ∧
      isProperlyFormatted "a,b,c,d,e,".toList = false ∧ commas "a,b,c,d,e,".toList = 5 := by
  simp only [isProperlyFormatted_eq]
  decide

/-! ## C2: header mismatch -/

/-- C2: when the first line of the file is not the expected header the loop
stops at that line with the header error: `results` and `addedUsers` are empty,
no directory helper has been called and the directory is as it was, whatever
lines follow. -/
theorem addUsers_header_mismatch {σ : Type} (L : Ldap σ) (basePath : Str) (ldap : σ)
    (first : Str) (rest : List Str) (h : first ≠ csvHeader) :
    (addUsers L basePath ldap (first :: rest)).results = [] ∧
      (addUsers L basePath ldap (first :: rest)).addedUsers = [] ∧
      (addUsers L basePath ldap (first :: rest)).calls = [] ∧
      (addUsers L basePath ldap (first :: rest)).ldap = ldap ∧
      (addUsers L basePath ldap (first :: rest)).cerr = [ParseError.headerIncorrect] ∧
      (addUsers L basePath ldap (first :: rest)).properFormat = false := by
  simp [addUsers, addUsersLoop, loopBody_header_bad, LoopState.init, h]

theorem addUsers_header_mismatch_witness :
    "id,name".toList ≠ csvHeader ∧
      (addUsers listDir main_basePath [] ["id,name".toList, "u1,A B,1,e,d,j".toList]).results
          = [] ∧
      (addUsers listDir main_basePath [] ["id,name".toList, "u1,A B,1,e,d,j".toList]).addedUsers
          = [] ∧
      (addUsers listDir main_basePath [] ["id,name".toList, "u1,A B,1,e,d,j".toList]).calls
          = [] ∧
      (addUsers listDir main_basePath [] ["id,name".toList, "u1,A B,1,e,d,j".toList]).ldap
          = [] ∧
      (addUsers listDir main_basePath [] ["id,name".toList, "u1,A B,1,e,d,j".toList]).cerr
          = [ParseError.headerIncorrect] ∧
      (addUsers listDir main_basePath [] ["id,name".toList, "u1,A B,1,e,d,j".toList]).properFormat
          = false :=
  ⟨by decide, addUsers_header_mismatch listDir main_basePath [] _ _ (by decide)⟩

theorem addUsersLoop_cons_record {σ : Type} (L : Ldap σ) (basePath : Str) (st : LoopState σ)
    (line a b c d e f : Str) (rest : List Str) (h : st.headerChecked = true)
    (ht : tokens ',' line = [a, b, c, d, e, f]) :
    addUsersLoop L basePath st (line :: rest)
      = addUsersLoop L basePath (addUser L basePath st a b c d e f) rest := by
  simp [addUsersLoop, loopBody_record L basePath st line a b c d e f h ht]

theorem addUsersLoop_cons_malformed {σ : Type} (L : Ldap σ) (basePath : Str)
    (st : LoopState σ) (line : Str) (rest : List Str) (h : st.headerChecked = true)
    (hbad : isProperlyFormatted line = false) :
    addUsersLoop L basePath st (line :: rest)
      = { st with cerr := st.cerr ++ [ParseError.notCommaDelimited], properFormat := false } := by
  simp [addUsersLoop, loopBody_malformed L basePath st line h hbad]

theorem loopBody_eq_loopBodyTok {σ : Type} (L : Ldap σ) (basePath : Str) (st : LoopState σ)
    (line : Str) : loopBody L basePath st line = loopBodyTok L basePath st line := by
  by_cases h : st.headerChecked = true
  · by_cases hok : isProperlyFormatted line = true
    · obtain ⟨a, b, c, d, e, f, ht, _⟩ := extractFields_of_isProperlyFormatted line hok
      rw [loopBody_record L basePath st line a b c d e f h ht]
      simp [loopBodyTok, h, ht]
    · have hbad : isProperlyFormatted line = false := by simpa using hok
      rw [loopBody_malformed L basePath st line h hbad]
      rw [isProperlyFormatted_eq] at hbad
      have hlen : (tokens ',' line).length ≠ 6 := by simpa using hbad
      unfold loopBodyTok
      simp only [h, Bool.not_true, Bool.false_eq_true, if_false]
      split
      · rename_i heq
        rw [heq] at hlen
        simp at hlen
      · rfl
  · have h0 : st.headerChecked = false := by simpa using h
    simp [loopBody, loopBodyTok, h0]

theorem addUsersLoop_eq_addUsersLoopTok {σ : Type} (L : Ldap σ) (basePath : Str)
    (lines : List Str) :
    ∀ st : LoopState σ,
      addUsersLoop L basePath st lines = addUsersLoopTok L basePath st lines := by
  induction lines with
  | nil => intro st; rfl
  | cons line rest ih =>
    intro st
    simp only [addUsersLoop, addUsersLoopTok, loopBody_eq_loopBodyTok, ih]

theorem addUsers_eq_addUsersLoopTok {σ : Type} (L : Ldap σ) (basePath : Str) (ldap : σ)
    (lines : List Str) :
    addUsers L basePath ldap lines = addUsersLoopTok L basePath (LoopState.init ldap) lines :=
  addUsersLoop_eq_addUsersLoopTok L basePath lines _

/-! ## C5: one outcome per data line -/

theorem userExistsCalls_append (xs ys : List DirCall) :
    userExistsCalls (xs ++ ys) = userExistsCalls xs ++ userExistsCalls ys := by
  induction xs with
  | nil => rfl
  | cons c cs ih => cases c <;> simp [userExistsCalls, ih]

theorem addLDAPUserCalls_append (xs ys : List DirCall) :
    addLDAPUserCalls (xs ++ ys) = addLDAPUserCalls xs ++ addLDAPUserCalls ys := by
  induction xs with
  | nil => rfl
  | cons c cs ih => cases c <;> simp [addLDAPUserCalls, ih]

/-- One record: the loop flags and parse errors are untouched, `userExists` is
called once, and exactly one of `results` and `addedUsers` grows, by the id. -/
theorem addUser_step {σ : Type} (L : Ldap σ) (basePath : Str) (st : LoopState σ)
    (id fullName phoneNumber email department jobDescription : Str) :
    (addUser L basePath st id fullName phoneNumber email department jobDescription).headerChecked
        = st.headerChecked ∧
      (addUser L basePath st id fullName phoneNumber email department jobDescription).properFormat
        = st.properFormat ∧
      (addUser L basePath st id fullName phoneNumber email department jobDescription).cerr
        = st.cerr ∧
      userExistsCalls
          (addUser L basePath st id fullName phoneNumber email department jobDescription).calls
        = userExistsCalls st.calls ++ [userDN basePath id] ∧
      ((∃ err,
          (addUser L basePath st id fullName phoneNumber email department jobDescription).results
            = st.results ++ [{ id := id, error := err }] ∧
          (addUser L basePath st id fullName phoneNumber email department jobDescription).addedUsers
            = st.addedUsers) ∨
       ((addUser L basePath st id fullName phoneNumber email department jobDescription).results
            = st.results ∧
          (addUser L basePath st id fullName phoneNumber email department jobDescription).addedUsers
            = st.addedUsers ++ [id])) := by
  unfold addUser
  by_cases he : (userExists L st.ldap (userDN basePath id)).2 = true
  · simp [he, userExistsCalls_append, userExistsCalls]
  · by_cases ha : (addLDAPUser L (userExists L st.ldap (userDN basePath id)).1 id fullName
        phoneNumber email department jobDescription).2 = LDAP_SUCCESS
    · simp [he, ha, userExistsCalls_append, userExistsCalls]
    · simp [he, ha, userExistsCalls_append, userExistsCalls]

/-- The loop over well-formed data lines, from any state past the header: every
line is processed, and each adds its id to exactly one of the two vectors. -/
theorem addUsersLoop_wellFormed {σ : Type} (L : Ldap σ) (basePath : Str)
    (dataLines : List Str) :
    ∀ st : LoopState σ, st.headerChecked = true →
      (∀ l ∈ dataLines, isProperlyFormatted l = true) →
      (addUsersLoop L basePath st dataLines).headerChecked = true ∧
      (addUsersLoop L basePath st dataLines).properFormat = st.properFormat ∧
      (addUsersLoop L basePath st dataLines).cerr = st.cerr ∧
      userExistsCalls (addUsersLoop L basePath st dataLines).calls
        = userExistsCalls st.calls ++ (dataLines.map recordId).map (userDN basePath) ∧
      (addUsersLoop L basePath st dataLines).results.length
          + (addUsersLoop L basePath st dataLines).addedUsers.length
        = st.results.length + st.addedUsers.length + dataLines.length ∧
      ∃ ok : List Bool, ok.length = dataLines.length ∧
        (addUsersLoop L basePath st dataLines).addedUsers
          = st.addedUsers ++ succeededIds ((dataLines.map recordId).zip ok) ∧
        (addUsersLoop L basePath st dataLines).results.map UserResult.id
          = st.results.map UserResult.id ++ failedIds ((dataLines.map recordId).zip ok) := by
  induction dataLines with
  | nil =>
    intro st h _
    exact ⟨h, rfl, rfl, by simp [addUsersLoop], by simp [addUsersLoop],
      [], rfl, by simp [addUsersLoop, succeededIds], by simp [addUsersLoop, failedIds]⟩
  | cons line rest ih =>
    intro st h hwf
    obtain ⟨a, b, c, d, e, f, ht, _⟩ :=
      extractFields_of_isProperlyFormatted line (hwf line (List.mem_cons_self _ _))
    have hbody := loopBody_record L basePath st line a b c d e f h ht
    have hid := recordId_of_tokens line a b c d e f ht
    obtain ⟨s1, s2, s3, s4, s5⟩ := addUser_step L basePath st a b c d e f
    have hloop : addUsersLoop L basePath st (line :: rest)
        = addUsersLoop L basePath (addUser L basePath st a b c d e f) rest := by
      simp [addUsersLoop, hbody]
    obtain ⟨i1, i2, i3, i4, i5, ok, i6, i7, i8⟩ :=
      ih (addUser L basePath st a b c d e f) (s1.trans h)
        (fun l hl => hwf l (List.mem_cons_of_mem _ hl))
    rw [hloop]
    refine ⟨i1, i2.trans s2, i3.trans s3, ?_, ?_, ?_⟩
    · rw [i4, s4, List.map_cons, List.map_cons, hid]
      simp
    · rw [i5]
      rcases s5 with ⟨err, r1, r2⟩ | ⟨r1, r2⟩
      · rw [r1, r2]
        simp only [List.length_append, List.length_cons, List.length_nil]
        omega
      · rw [r1, r2]
        simp only [List.length_append, List.length_cons, List.length_nil]
        omega
    · rcases s5 with ⟨err, r1, r2⟩ | ⟨r1, r2⟩
      · refine ⟨false :: ok, by simp [i6], ?_, ?_⟩
        · rw [i7, r2, List.map_cons, hid]
          simp [succeededIds]
        · rw [i8, r1, List.map_cons, hid]
          simp [failedIds]
      · refine ⟨true :: ok, by simp [i6], ?_, ?_⟩
        · rw [i7, r2, List.map_cons, hid]
          simp [succeededIds]
        · rw [i8, r1, List.map_cons, hid]
          simp [failedIds]

theorem sampleLines_wellFormed : ∀ l ∈ [lineU1, lineU2], isProperlyFormatted l = true := by
  intro l hl
  rw [isProperlyFormatted_eq]
  simp only [List.mem_cons, List.mem_singleton, List.not_mem_nil, or_false] at hl
  rcases hl with rfl | rfl <;> decide

/-- C5: on a batch with the valid header whose data lines all pass
`isProperlyFormatted`, whatever the directory answers, the loop ends without a
parse error having called `userExists` once per data line in file order, and
`results` and `addedUsers` together hold one entry per data line: the ids of the
lines that succeeded and of the lines that failed, each in file order. -/
theorem addUsers_one_outcome_per_line {σ : Type} (L : Ldap σ) (basePath : Str) (ldap : σ)
    (dataLines : List Str) (hwf : ∀ l ∈ dataLines, isProperlyFormatted l = true) :
    (addUsers L basePath ldap (csvHeader :: dataLines)).results.length
        + (addUsers L basePath ldap (csvHeader :: dataLines)).addedUsers.length
        = dataLines.length ∧
      (addUsers L basePath ldap (csvHeader :: dataLines)).properFormat = true ∧
      (addUsers L basePath ldap (csvHeader :: dataLines)).cerr = [] ∧
      userExistsCalls (addUsers L basePath ldap (csvHeader :: dataLines)).calls
        = (dataLines.map recordId).map (userDN basePath) ∧
      ∃ ok : List Bool, ok.length = dataLines.length ∧
        (addUsers L basePath ldap (csvHeader :: dataLines)).addedUsers
          = succeededIds ((dataLines.map recordId).zip ok) ∧
        (addUsers L basePath ldap (csvHeader :: dataLines)).results.map UserResult.id
          = failedIds ((dataLines.map recordId).zip ok) := by
  rw [addUsers_header]
  obtain ⟨_, h2, h3, h4, h5, ok, h6, h7, h8⟩ :=
    addUsersLoop_wellFormed L basePath dataLines
      (LoopState.pastHeader ldap) rfl hwf
  refine ⟨?_, h2, h3, ?_, ok, h6, ?_, ?_⟩
  · simpa [LoopState.pastHeader] using h5
  · simpa [LoopState.pastHeader, userExistsCalls] using h4
  · simpa [LoopState.pastHeader] using h7
  · simpa [LoopState.pastHeader] using h8

theorem addUsers_one_outcome_per_line_witness :
    (addUsers listDir main_basePath [userDN main_basePath "u2".toList]
          (csvHeader :: [lineU1, lineU2])).results.length
        + (addUsers listDir main_basePath [userDN main_basePath "u2".toList]
          (csvHeader :: [lineU1, lineU2])).addedUsers.length
        = [lineU1, lineU2].length :=
  (addUsers_one_outcome_per_line listDir main_basePath [userDN main_basePath "u2".toList]
    [lineU1, lineU2] sampleLines_wellFormed).1

/-! ## C6: the outcome of one record -/

/-- C6: one iteration on a data line that passes `isProperlyFormatted`, the
header being read. The loop goes on. When `userExists` answers true for the DN
of the record's id, the failure "User already exists" is appended to `results`
and `addLDAPUser` is not called. Otherwise `addLDAPUser` is called once, with
the six fields of the line; the id is appended to `addedUsers` when it returns
`LDAP_SUCCESS`, and otherwise the failure appended to `results` carries the
text `ldap_err2stringA` gives for the returned code. -/
theorem loopBody_record_outcome {σ : Type} (L : Ldap σ) (basePath : Str) (st : LoopState σ)
    (line : Str) (h : st.headerChecked = true) (hwf : isProperlyFormatted line = true) :
    (loopBody L basePath st line).1 = false ∧
    ((userExists L st.ldap (userDN basePath (recordId line))).2 = true →
      (loopBody L basePath st line).2.results
          = st.results ++ [{ id := recordId line, error := userAlreadyExists }] ∧
        (loopBody L basePath st line).2.addedUsers = st.addedUsers ∧
        (loopBody L basePath st line).2.calls
          = st.calls ++ [DirCall.userExists (userDN basePath (recordId line))] ∧
        (loopBody L basePath st line).2.ldap
          = (userExists L st.ldap (userDN basePath (recordId line))).1) ∧
    ((userExists L st.ldap (userDN basePath (recordId line))).2 = false →
      ∃ fullName phoneNumber email department jobDescription,
        extractFields line
          = some (recordId line, fullName, phoneNumber, email, department, jobDescription) ∧
        (loopBody L basePath st line).2.calls
          = st.calls ++ [DirCall.userExists (userDN basePath (recordId line)),
              DirCall.addLDAPUser (recordId line) fullName phoneNumber email department
                jobDescription] ∧
        (loopBody L basePath st line).2.ldap
          = (addLDAPUser L (userExists L st.ldap (userDN basePath (recordId line))).1
              (recordId line) fullName phoneNumber email department jobDescription).1 ∧
        ((addLDAPUser L (userExists L st.ldap (userDN basePath (recordId line))).1
              (recordId line) fullName phoneNumber email department jobDescription).2
            = LDAP_SUCCESS →
          (loopBody L basePath st line).2.addedUsers = st.addedUsers ++ [recordId line] ∧
          (loopBody L basePath st line).2.results = st.results) ∧
        ((addLDAPUser L (userExists L st.ldap (userDN basePath (recordId line))).1
              (recordId line) fullName phoneNumber email department jobDescription).2
            ≠ LDAP_SUCCESS →
          (loopBody L basePath st line).2.results
            = st.results ++ [UserResult.mk (recordId line)
                (L.ldap_err2stringA
                  (addLDAPUser L (userExists L st.ldap (userDN basePath (recordId line))).1
                    (recordId line) fullName phoneNumber email department jobDescription).2)] ∧
          (loopBody L basePath st line).2.addedUsers = st.addedUsers)) := by
  obtain ⟨a, b, c, d, e, f, ht, hx⟩ := extractFields_of_isProperlyFormatted line hwf
  rw [loopBody_record L basePath st line a b c d e f h ht, recordId_of_tokens line a b c d e f ht]
  refine ⟨rfl, ?_, ?_⟩
  · intro he
    simp [addUser, he]
  · intro he
    refine ⟨b, c, d, e, f, hx, ?_, ?_, ?_, ?_⟩
    · by_cases ha : (addLDAPUser L (userExists L st.ldap (userDN basePath a)).1 a b c d e f).2
          = LDAP_SUCCESS <;> simp [addUser, he, ha]
    · by_cases ha : (addLDAPUser L (userExists L st.ldap (userDN basePath a)).1 a b c d e f).2
          = LDAP_SUCCESS <;> simp [addUser, he, ha]
    · intro ha
      simp [addUser, he, ha]
    · intro ha
      simp [addUser, he, ha]

theorem loopBody_record_outcome_witness :
    isProperlyFormatted lineU1 = true ∧
      (loopBody listDir main_basePath
        (LoopState.pastHeader ([] : List Str)) lineU1).1 = false :=
  ⟨sampleLines_wellFormed lineU1 (by simp),
    (loopBody_record_outcome listDir main_basePath
      (LoopState.pastHeader ([] : List Str)) lineU1 rfl
      (sampleLines_wellFormed lineU1 (by simp))).1⟩

/-! ## C3: a malformed line after well-formed ones -/

theorem addUsersLoop_append_wellFormed {σ : Type} (L : Ldap σ) (basePath : Str)
    (pre rest : List Str) :
    ∀ st : LoopState σ, st.headerChecked = true →
      (∀ l ∈ pre, isProperlyFormatted l = true) →
      addUsersLoop L basePath st (pre ++ rest)
        = addUsersLoop L basePath (addUsersLoop L basePath st pre) rest := by
  induction pre with
  | nil => intro st _ _; rfl
  | cons line more ih =>
    intro st h hwf
    obtain ⟨a, b, c, d, e, f, ht, _⟩ :=
      extractFields_of_isProperlyFormatted line (hwf line (List.mem_cons_self _ _))
    rw [List.cons_append, addUsersLoop_cons_record L basePath st line a b c d e f _ h ht,
      addUsersLoop_cons_record L basePath st line a b c d e f _ h ht]
    exact ih _ ((addUser_step L basePath st a b c d e f).1.trans h)
      (fun l hl => hwf l (List.mem_cons_of_mem _ hl))

/-- C3, on the code: with the valid header, the well-formed line of `u1` and
then a malformed line, the loop ends with the comma-delimiting error after
`userExists` and `addLDAPUser` were both called for `u1`, and the directory now
holds the entry of `u1`. -/
theorem malformed_line_after_directory_calls :
    isProperlyFormatted lineShort = false ∧
      (addUsers listDir main_basePath [] [csvHeader, lineU1, lineShort]).cerr
        = [ParseError.notCommaDelimited] ∧
      userExistsCalls (addUsers listDir main_basePath [] [csvHeader, lineU1, lineShort]).calls
        = [userDN main_basePath "u1".toList] ∧
      addLDAPUserCalls (addUsers listDir main_basePath [] [csvHeader, lineU1, lineShort]).calls
        = ["u1".toList] ∧
      (addUsers listDir main_basePath [] [csvHeader, lineU1, lineShort]).ldap
        = [newUserDN "u1".toList] ∧
      (addUsers listDir main_basePath [] [csvHeader, lineU1, lineShort]).calls ≠ [] := by
  rw [isProperlyFormatted_eq, addUsers_eq_addUsersLoopTok]
  decide

/-- C3 as amended: with the valid header, well-formed data lines `pre`, then a
malformed line, the loop stops at the malformed line with the comma-delimiting
error. No directory helper is called for that line or for any line after it;
the calls made, the directory, `results` and `addedUsers` are those of the file
that ends after `pre`, one `userExists` call per line of `pre`. -/
theorem addUsers_malformed_line {σ : Type} (L : Ldap σ) (basePath : Str) (ldap : σ)
    (pre : List Str) (bad : Str) (post : List Str)
    (hpre : ∀ l ∈ pre, isProperlyFormatted l = true)
    (hbad : isProperlyFormatted bad = false) :
    (addUsers L basePath ldap (csvHeader :: (pre ++ bad :: post))).calls
        = (addUsers L basePath ldap (csvHeader :: pre)).calls ∧
      (addUsers L basePath ldap (csvHeader :: (pre ++ bad :: post))).ldap
        = (addUsers L basePath ldap (csvHeader :: pre)).ldap ∧
      (addUsers L basePath ldap (csvHeader :: (pre ++ bad :: post))).results
        = (addUsers L basePath ldap (csvHeader :: pre)).results ∧
      (addUsers L basePath ldap (csvHeader :: (pre ++ bad :: post))).addedUsers
        = (addUsers L basePath ldap (csvHeader :: pre)).addedUsers ∧
      (addUsers L basePath ldap (csvHeader :: (pre ++ bad :: post))).cerr
        = [ParseError.notCommaDelimited] ∧
      (addUsers L basePath ldap (csvHeader :: (pre ++ bad :: post))).properFormat = false ∧
      userExistsCalls (addUsers L basePath ldap (csvHeader :: (pre ++ bad :: post))).calls
        = (pre.map recordId).map (userDN basePath) := by
  obtain ⟨h1, _, h3, h4, _⟩ :=
    addUsersLoop_wellFormed L basePath pre
      (LoopState.pastHeader ldap) rfl hpre
  rw [addUsers_header, addUsers_header,
    addUsersLoop_append_wellFormed L basePath pre (bad :: post) _ rfl hpre,
    addUsersLoop_cons_malformed L basePath _ bad post h1 hbad]
  refine ⟨rfl, rfl, rfl, rfl, ?_, rfl, ?_⟩
  · show (addUsersLoop L basePath (LoopState.pastHeader ldap) pre).cerr
        ++ [ParseError.notCommaDelimited] = [ParseError.notCommaDelimited]
    rw [h3]
    rfl
  · show userExistsCalls (addUsersLoop L basePath (LoopState.pastHeader ldap) pre).calls
        = (pre.map recordId).map (userDN basePath)
    rw [h4]
    rfl

theorem addUsers_malformed_line_witness :
    (∀ l ∈ [lineU1, lineU2], isProperlyFormatted l = true) ∧
      isProperlyFormatted lineShort = false ∧
      (addUsers listDir main_basePath [] (csvHeader :: ([lineU1, lineU2] ++ lineShort :: []))).calls
        = (addUsers listDir main_basePath [] (csvHeader :: [lineU1, lineU2])).calls :=
  ⟨sampleLines_wellFormed, by rw [isProperlyFormatted_eq]; decide,
    (addUsers_malformed_line listDir main_basePath [] [lineU1, lineU2] lineShort []
      sampleLines_wellFormed (by rw [isProperlyFormatted_eq]; decide)).1⟩

/-! ## C4 and C9: the report after the loop -/

/-- C4, on the code: after the header error the chain of main.cpp 514-575 still
prints a summary, the full-success one with no id; after the comma-delimiting
error on a file whose first data line names a user already in the directory it
prints the common-cause summary. -/
theorem report_after_parse_error :
    (addUsers listDir main_basePath [] ["id,name".toList, lineU1]).cerr
        = [ParseError.headerIncorrect] ∧
      (addUsers listDir main_basePath [] ["id,name".toList, lineU1]).report
        = Report.allAdded [] ∧
      (addUsers listDir main_basePath [userDN main_basePath "u1".toList]
          [csvHeader, lineU1, lineShort]).cerr = [ParseError.notCommaDelimited] ∧
      (addUsers listDir main_basePath [userDN main_basePath "u1".toList]
          [csvHeader, lineU1, lineShort]).report = Report.sameReason userAlreadyExists := by
  simp only [addUsers_eq_addUsersLoopTok]
  decide

/-- C9, on the code: on the batch of the valid header and the two well-formed
lines of `u1` and `u2`, both already in the directory, both records fail with
"User already exists", no parse error is raised, and the report is the "no
valid data rows" error, not the common-cause summary. -/
theorem report_when_every_record_fails :
    (addUsers listDir main_basePath
          [userDN main_basePath "u1".toList, userDN main_basePath "u2".toList]
          [csvHeader, lineU1, lineU2]).results
        = [{ id := "u1".toList, error := userAlreadyExists },
           { id := "u2".toList, error := userAlreadyExists }] ∧
      (addUsers listDir main_basePath
          [userDN main_basePath "u1".toList, userDN main_basePath "u2".toList]
          [csvHeader, lineU1, lineU2]).addedUsers = [] ∧
      (addUsers listDir main_basePath
          [userDN main_basePath "u1".toList, userDN main_basePath "u2".toList]
          [csvHeader, lineU1, lineU2]).cerr = [] ∧
      (addUsers listDir main_basePath
          [userDN main_basePath "u1".toList, userDN main_basePath "u2".toList]
          [csvHeader, lineU1, lineU2]).report = Report.noValidDataRows := by
  simp only [addUsers_eq_addUsersLoopTok]
  decide

/-! ## C7: ids that succeeded and ids that failed -/

theorem mem_succeededIds (o : List (Str × Bool)) (a : Str) :
    a ∈ succeededIds o ↔ (a, true) ∈ o := by
  simp [succeededIds]

theorem mem_failedIds (o : List (Str × Bool)) (a : Str) :
    a ∈ failedIds o ↔ (a, false) ∈ o := by
  simp [failedIds]

theorem zip_flag_unique (ids : List Str) (hn : ids.Nodup) :
    ∀ (ok : List Bool) (a : Str) (x y : Bool),
      (a, x) ∈ ids.zip ok → (a, y) ∈ ids.zip ok → x = y := by
  induction ids with
  | nil => intro ok a x y hx; simp at hx
  | cons i is ih =>
    intro ok a x y hx hy
    cases ok with
    | nil => simp at hx
    | cons f fs =>
      rw [List.nodup_cons] at hn
      rw [List.zip_cons_cons, List.mem_cons] at hx hy
      rcases hx with hx | hx <;> rcases hy with hy | hy
      · rw [Prod.mk.injEq] at hx hy
        rw [hx.2, hy.2]
      · rw [Prod.mk.injEq] at hx
        exact absurd (hx.1 ▸ (List.of_mem_zip hy).1) hn.1
      · rw [Prod.mk.injEq] at hy
        exact absurd (hy.1 ▸ (List.of_mem_zip hx).1) hn.1
      · exact ih hn.2 fs a x y hx hy

theorem recordId_lineU1 : recordId lineU1 = "u1".toList :=
  recordId_of_tokens lineU1 _ _ _ _ _ _ rfl

theorem recordId_lineU2 : recordId lineU2 = "u2".toList :=
  recordId_of_tokens lineU2 _ _ _ _ _ _ rfl

/-- C7, on the code: on the batch of the valid header and the well-formed line
of `u1` twice, over the empty directory, the first line succeeds and the second
fails: `u1` is both in `addedUsers` and among the ids of `results`. -/
theorem duplicate_id_succeeds_and_fails :
    isProperlyFormatted lineU1 = true ∧
      (addUsers listDir main_basePath [] [csvHeader, lineU1, lineU1]).addedUsers
        = ["u1".toList] ∧
      (addUsers listDir main_basePath [] [csvHeader, lineU1, lineU1]).results
        = [{ id := "u1".toList, error := userAlreadyExists }] ∧
      "u1".toList ∈ (addUsers listDir main_basePath [] [csvHeader, lineU1, lineU1]).addedUsers ∧
      "u1".toList
        ∈ (addUsers listDir main_basePath [] [csvHeader, lineU1, lineU1]).results.map
            UserResult.id := by
  rw [isProperlyFormatted_eq, addUsers_eq_addUsersLoopTok]
  decide

/-- C7 as amended: on a batch with the valid header whose data lines all pass
`isProperlyFormatted` and carry pairwise distinct ids, whatever the directory
answers, no id of `addedUsers` is the id of an entry of `results`. -/
theorem addUsers_disjoint_of_distinct_ids {σ : Type} (L : Ldap σ) (basePath : Str) (ldap : σ)
    (dataLines : List Str) (hwf : ∀ l ∈ dataLines, isProperlyFormatted l = true)
    (hn : (dataLines.map recordId).Nodup) :
    ∀ id ∈ (addUsers L basePath ldap (csvHeader :: dataLines)).addedUsers,
      id ∉ (addUsers L basePath ldap (csvHeader :: dataLines)).results.map UserResult.id := by
  rw [addUsers_header]
  obtain ⟨_, _, _, _, _, ok, _, h7, h8⟩ :=
    addUsersLoop_wellFormed L basePath dataLines (LoopState.pastHeader ldap) rfl hwf
  intro id hs hf
  rw [h7] at hs
  rw [h8] at hf
  have hs1 : (id, true) ∈ (dataLines.map recordId).zip ok := by
    simpa [LoopState.pastHeader, mem_succeededIds] using hs
  have hf1 : (id, false) ∈ (dataLines.map recordId).zip ok := by
    simpa [LoopState.pastHeader, mem_failedIds] using hf
  exact Bool.noConfusion (zip_flag_unique _ hn ok id true false hs1 hf1)

theorem addUsers_disjoint_of_distinct_ids_witness :
    (∀ l ∈ [lineU1, lineU2], isProperlyFormatted l = true) ∧
      ([lineU1, lineU2].map recordId).Nodup ∧
      ∀ id ∈ (addUsers listDir main_basePath [userDN main_basePath "u2".toList]
          (csvHeader :: [lineU1, lineU2])).addedUsers,
        id ∉ (addUsers listDir main_basePath [userDN main_basePath "u2".toList]
          (csvHeader :: [lineU1, lineU2])).results.map UserResult.id :=
  ⟨sampleLines_wellFormed,
    by simp only [List.map, recordId_lineU1, recordId_lineU2]; decide,
    addUsers_disjoint_of_distinct_ids listDir main_basePath
      [userDN main_basePath "u2".toList] [lineU1, lineU2] sampleLines_wellFormed
      (by simp only [List.map, recordId_lineU1, recordId_lineU2]; decide)⟩

/-! ## C8: a second run on the same batch -/

theorem userDN_main_basePath (id : Str) : userDN main_basePath id = newUserDN id := by
  simp [userDN, newUserDN, main_basePath, List.append_assoc]

theorem addUser_ldap {σ : Type} (L : Ldap σ) (basePath : Str) (st : LoopState σ)
    (id fullName phoneNumber email department jobDescription : Str) :
    (addUser L basePath st id fullName phoneNumber email department jobDescription).ldap
      = if (userExists L st.ldap (userDN basePath id)).2 = true then
          (userExists L st.ldap (userDN basePath id)).1
        else
          (addLDAPUser L (userExists L st.ldap (userDN basePath id)).1 id fullName phoneNumber
            email department jobDescription).1 := by
  by_cases he : (userExists L st.ldap (userDN basePath id)).2 = true
  · simp [addUser, he]
  · by_cases ha : (addLDAPUser L (userExists L st.ldap (userDN basePath id)).1 id fullName
        phoneNumber email department jobDescription).2 = LDAP_SUCCESS <;>
      simp [addUser, he, ha]

/-- One record over a directory in which adds persist: what `userExists` finds
stays found, a failure on a DN that `userExists` finds is "User already
exists", and a success happens only on a DN not found before, which is found
afterwards. -/
theorem addUser_persist {σ : Type} (L : Ldap σ) (hP : AddsPersist L) (basePath : Str)
    (st : LoopState σ) (id fullName phoneNumber email department jobDescription : Str) :
    (∀ dn, (userExists L st.ldap dn).2 = true →
        (userExists L
          (addUser L basePath st id fullName phoneNumber email department jobDescription).ldap
          dn).2 = true) ∧
    ((∃ err,
        (addUser L basePath st id fullName phoneNumber email department jobDescription).results
          = st.results ++ [{ id := id, error := err }] ∧
        (addUser L basePath st id fullName phoneNumber email department jobDescription).addedUsers
          = st.addedUsers ∧
        ((userExists L st.ldap (userDN basePath id)).2 = true → err = userAlreadyExists)) ∨
     ((addUser L basePath st id fullName phoneNumber email department jobDescription).results
          = st.results ∧
        (addUser L basePath st id fullName phoneNumber email department jobDescription).addedUsers
          = st.addedUsers ++ [id] ∧
        (userExists L st.ldap (userDN basePath id)).2 = false ∧
        (userExists L
          (addUser L basePath st id fullName phoneNumber email department jobDescription).ldap
          (newUserDN id)).2 = true)) := by
  obtain ⟨h1, h2, h3⟩ := hP
  by_cases he : (userExists L st.ldap (userDN basePath id)).2 = true
  · refine ⟨fun dn hk => ?_, Or.inl ⟨userAlreadyExists, ?_, ?_, fun _ => rfl⟩⟩
    · rw [addUser_ldap, if_pos he]
      exact h3 st.ldap dn (userDN basePath id) hk
    · simp [addUser, he]
    · simp [addUser, he]
  · have he0 : (userExists L st.ldap (userDN basePath id)).2 = false := by simpa using he
    by_cases ha : (addLDAPUser L (userExists L st.ldap (userDN basePath id)).1 id fullName
        phoneNumber email department jobDescription).2 = LDAP_SUCCESS
    · refine ⟨fun dn hk => ?_, Or.inr ⟨?_, ?_, he0, ?_⟩⟩
      · rw [addUser_ldap, if_neg he]
        exact h2 _ dn (c_str (newUserDN id))
          (addLDAPUserMods id fullName phoneNumber email department jobDescription)
          (h3 st.ldap dn (userDN basePath id) hk)
      · simp [addUser, he0, ha]
      · simp [addUser, he0, ha]
      · rw [addUser_ldap, if_neg he, ← userExists_c_str]
        exact h1 _ _ _ ha
    · refine ⟨fun dn hk => ?_, Or.inl ⟨L.ldap_err2stringA (addLDAPUser L
          (userExists L st.ldap (userDN basePath id)).1 id fullName phoneNumber email
          department jobDescription).2, ?_, ?_, fun hk => ?_⟩⟩
      · rw [addUser_ldap, if_neg he]
        exact h2 _ dn (c_str (newUserDN id))
          (addLDAPUserMods id fullName phoneNumber email department jobDescription)
          (h3 st.ldap dn (userDN basePath id) hk)
      · simp [addUser, he0, ha]
      · simp [addUser, he0, ha]
      · rw [he0] at hk
        exact Bool.noConfusion hk

/-- First run: whatever `userExists` found before the loop it finds after it,
and every id the loop added is found after it. -/
theorem addUsersLoop_added_known {σ : Type} (L : Ldap σ) (hP : AddsPersist L)
    (basePath : Str) (dataLines : List Str) :
    ∀ st : LoopState σ, st.headerChecked = true →
      (∀ l ∈ dataLines, isProperlyFormatted l = true) →
      (∀ dn, (userExists L st.ldap dn).2 = true →
        (userExists L (addUsersLoop L basePath st dataLines).ldap dn).2 = true) ∧
      (∀ id ∈ (addUsersLoop L basePath st dataLines).addedUsers,
        id ∈ st.addedUsers ∨
        (userExists L (addUsersLoop L basePath st dataLines).ldap (newUserDN id)).2 = true) := by
  induction dataLines with
  | nil =>
    intro st _ _
    exact ⟨fun _ hk => hk, fun id hid => Or.inl hid⟩
  | cons line rest ih =>
    intro st h hwf
    obtain ⟨a, b, c, d, e, f, ht, _⟩ :=
      extractFields_of_isProperlyFormatted line (hwf line (List.mem_cons_self _ _))
    rw [addUsersLoop_cons_record L basePath st line a b c d e f rest h ht]
    obtain ⟨m1, m2⟩ := ih (addUser L basePath st a b c d e f)
      ((addUser_step L basePath st a b c d e f).1.trans h)
      (fun l hl => hwf l (List.mem_cons_of_mem _ hl))
    obtain ⟨p1, p2⟩ := addUser_persist L hP basePath st a b c d e f
    refine ⟨fun dn hk => m1 dn (p1 dn hk), ?_⟩
    intro id hid
    rcases m2 id hid with hin | hk
    · rcases p2 with ⟨err, _, r2, _⟩ | ⟨_, r2, _, r4⟩
      · rw [r2] at hin
        exact Or.inl hin
      · rw [r2, List.mem_append, List.mem_singleton] at hin
        rcases hin with hin | rfl
        · exact Or.inl hin
        · exact Or.inr (m1 _ r4)
    · exact Or.inr hk

/-- Second run, for an id whose DN `userExists` finds before the loop: the loop
does not add it, every failure it records for it is "User already exists", and
it records that failure when the id is on a data line. -/
theorem addUsersLoop_known_fails {σ : Type} (L : Ldap σ) (hP : AddsPersist L)
    (basePath : Str) (id : Str) (dataLines : List Str) :
    ∀ st : LoopState σ, st.headerChecked = true →
      (∀ l ∈ dataLines, isProperlyFormatted l = true) →
      (userExists L st.ldap (userDN basePath id)).2 = true →
      (id ∈ (addUsersLoop L basePath st dataLines).addedUsers → id ∈ st.addedUsers) ∧
      (∀ r ∈ (addUsersLoop L basePath st dataLines).results, r.id = id →
        r ∈ st.results ∨ r.error = userAlreadyExists) ∧
      (id ∈ dataLines.map recordId →
        { id := id, error := userAlreadyExists }
          ∈ (addUsersLoop L basePath st dataLines).results) ∧
      (∀ r ∈ st.results, r ∈ (addUsersLoop L basePath st dataLines).results) := by
  induction dataLines with
  | nil =>
    intro st _ _ _
    exact ⟨fun h => h, fun r hr _ => Or.inl hr, fun h => by simp at h, fun r hr => hr⟩
  | cons line rest ih =>
    intro st h hwf hk
    obtain ⟨a, b, c, d, e, f, ht, _⟩ :=
      extractFields_of_isProperlyFormatted line (hwf line (List.mem_cons_self _ _))
    rw [addUsersLoop_cons_record L basePath st line a b c d e f rest h ht]
    obtain ⟨p1, p2⟩ := addUser_persist L hP basePath st a b c d e f
    obtain ⟨m1, m2, m3, m4⟩ := ih (addUser L basePath st a b c d e f)
      ((addUser_step L basePath st a b c d e f).1.trans h)
      (fun l hl => hwf l (List.mem_cons_of_mem _ hl)) (p1 _ hk)
    have hid := recordId_of_tokens line a b c d e f ht
    rcases p2 with ⟨err, r1, r2, r3⟩ | ⟨r1, r2, r3, _⟩
    · refine ⟨fun hin => r2 ▸ m1 hin, ?_, ?_, ?_⟩
      · intro r hr hrid
        rcases m2 r hr hrid with hin | herr
        · rw [r1, List.mem_append, List.mem_singleton] at hin
          rcases hin with hin | rfl
          · exact Or.inl hin
          · exact Or.inr (r3 (by rw [← hrid] at hk; exact hk))
        · exact Or.inr herr
      · intro hmem
        rw [List.map_cons, List.mem_cons, hid] at hmem
        rcases hmem with rfl | hmem
        · apply m4
          rw [r1, r3 hk]
          simp
        · exact m3 hmem
      · intro r hr
        apply m4
        rw [r1]
        exact List.mem_append_left _ hr
    · have hne : a ≠ id := by
        intro hEq
        rw [hEq, hk] at r3
        exact Bool.noConfusion r3
      refine ⟨?_, ?_, ?_, ?_⟩
      · intro hin
        have := m1 hin
        rw [r2, List.mem_append, List.mem_singleton] at this
        rcases this with hin | hEq
        · exact hin
        · exact absurd hEq.symm hne
      · intro r hr hrid
        rcases m2 r hr hrid with hin | herr
        · exact Or.inl (r1 ▸ hin)
        · exact Or.inr herr
      · intro hmem
        rw [List.map_cons, List.mem_cons, hid] at hmem
        rcases hmem with hEq | hmem
        · exact absurd hEq.symm hne
        · exact m3 hmem
      · intro r hr
        exact m4 r (r1 ▸ hr)

theorem listDir_userExists (s : List Str) (dn : Str) :
    userExists listDir s dn = (s, decide (c_str dn ∈ s)) := by
  by_cases h : c_str dn ∈ s <;> simp [userExists, listDir, c_str_idem, h, LDAP_SUCCESS]

theorem listDir_addsPersist : AddsPersist listDir := by
  refine ⟨?_, ?_, ?_⟩
  · intro s dn mods h
    rw [listDir_userExists]
    by_cases hm : c_str dn ∈ s
    · simp [listDir, hm, LDAP_SUCCESS] at h
    · simp [listDir, hm]
  · intro s dn dn1 mods h
    rw [listDir_userExists] at h ⊢
    have hm : c_str dn ∈ s := by simpa using h
    by_cases hm1 : c_str dn1 ∈ s
    · simp [listDir, hm1, hm]
    · simp [listDir, hm1, hm]
  · intro s dn dn1 h
    rw [listDir_userExists] at h
    rw [listDir_userExists, listDir_userExists]
    exact h

/-- C8: over a directory in which adds persist, take a batch with the valid
header whose data lines all pass `isProperlyFormatted`, run the loop on it, and
run it again on the directory the first run left. Every id the first run added
is not added by the second run, it has the failure "User already exists" in the
`results` of the second run, and every failure the second run records for it
is that one. -/
theorem addUsers_second_run {σ : Type} (L : Ldap σ) (hP : AddsPersist L) (ldap : σ)
    (dataLines : List Str) (hwf : ∀ l ∈ dataLines, isProperlyFormatted l = true) :
    ∀ id ∈ (addUsers L main_basePath ldap (csvHeader :: dataLines)).addedUsers,
      id ∉ (addUsers L main_basePath
              (addUsers L main_basePath ldap (csvHeader :: dataLines)).ldap
              (csvHeader :: dataLines)).addedUsers ∧
        UserResult.mk id userAlreadyExists
          ∈ (addUsers L main_basePath
              (addUsers L main_basePath ldap (csvHeader :: dataLines)).ldap
              (csvHeader :: dataLines)).results ∧
        ∀ r ∈ (addUsers L main_basePath
              (addUsers L main_basePath ldap (csvHeader :: dataLines)).ldap
              (csvHeader :: dataLines)).results,
          r.id = id → r.error = userAlreadyExists := by
  intro id hid
  have hknown : (userExists L (addUsers L main_basePath ldap (csvHeader :: dataLines)).ldap
      (userDN main_basePath id)).2 = true := by
    rw [userDN_main_basePath]
    rw [addUsers_header] at hid ⊢
    rcases (addUsersLoop_added_known L hP main_basePath dataLines
      (LoopState.pastHeader ldap) rfl hwf).2 id hid with hin | hk
    · simp [LoopState.pastHeader] at hin
    · exact hk
  have hline : id ∈ dataLines.map recordId := by
    rw [addUsers_header] at hid
    obtain ⟨_, _, _, _, _, ok, _, h7, _⟩ :=
      addUsersLoop_wellFormed L main_basePath dataLines (LoopState.pastHeader ldap) rfl hwf
    rw [h7] at hid
    have : (id, true) ∈ (dataLines.map recordId).zip ok := by
      simpa [LoopState.pastHeader, mem_succeededIds] using hid
    exact (List.of_mem_zip this).1
  obtain ⟨k1, k2, k3, _⟩ :=
    addUsersLoop_known_fails L hP main_basePath id dataLines
      (LoopState.pastHeader (addUsers L main_basePath ldap (csvHeader :: dataLines)).ldap)
      rfl hwf hknown
  rw [addUsers_header L main_basePath
    (addUsers L main_basePath ldap (csvHeader :: dataLines)).ldap]
  refine ⟨fun hin => ?_, k3 hline, fun r hr hrid => ?_⟩
  · have := k1 hin
    simp [LoopState.pastHeader] at this
  · rcases k2 r hr hrid with hin | herr
    · simp [LoopState.pastHeader] at hin
    · exact herr

theorem addUsers_second_run_witness :
    AddsPersist listDir ∧ (∀ l ∈ [lineU1, lineU2], isProperlyFormatted l = true) ∧
      ∀ id ∈ (addUsers listDir main_basePath [] (csvHeader :: [lineU1, lineU2])).addedUsers,
        id ∉ (addUsers listDir main_basePath
                (addUsers listDir main_basePath [] (csvHeader :: [lineU1, lineU2])).ldap
                (csvHeader :: [lineU1, lineU2])).addedUsers ∧
          UserResult.mk id userAlreadyExists
            ∈ (addUsers listDir main_basePath
                (addUsers listDir main_basePath [] (csvHeader :: [lineU1, lineU2])).ldap
                (csvHeader :: [lineU1, lineU2])).results ∧
          ∀ r ∈ (addUsers listDir main_basePath
                (addUsers listDir main_basePath [] (csvHeader :: [lineU1, lineU2])).ldap
                (csvHeader :: [lineU1, lineU2])).results,
            r.id = id → r.error = userAlreadyExists :=
  ⟨listDir_addsPersist, sampleLines_wellFormed,
    addUsers_second_run listDir listDir_addsPersist [] [lineU1, lineU2] sampleLines_wellFormed⟩

/-- The first run of the batch of `u1` and `u2` over the empty directory adds
both ids. -/
theorem first_run_adds_both :
    (addUsers listDir main_basePath [] (csvHeader :: [lineU1, lineU2])).addedUsers
      = ["u1".toList, "u2".toList] := by
  rw [addUsers_eq_addUsersLoopTok]
  decide

/-! ## C10: the clustered report -/

theorem strLess_irrefl (a : Str) : strLess a a = false := by
  induction a with
  | nil => rfl
  | cons c cs ih => simp [strLess, ih]

theorem strLess_trans : ∀ (a b c : Str), strLess a b = true → strLess b c = true →
    strLess a c = true := by
  intro a
  induction a with
  | nil =>
    intro b c hab hbc
    cases c with
    | nil => cases b <;> simp [strLess] at hbc
    | cons z zs => rfl
  | cons x xs ih =>
    intro b c hab hbc
    cases b with
    | nil => simp [strLess] at hab
    | cons y ys =>
      cases c with
      | nil => simp [strLess] at hbc
      | cons z zs =>
        simp only [strLess] at hab hbc ⊢
        by_cases h1 : x.toNat < y.toNat
        · by_cases h2 : y.toNat < z.toNat
          · have : x.toNat < z.toNat := by omega
            simp [this]
          · by_cases h3 : z.toNat < y.toNat
            · simp [h2, h3] at hbc
            · have : x.toNat < z.toNat := by omega
              simp [this]
        · by_cases h1b : y.toNat < x.toNat
          · simp [h1, h1b] at hab
          · simp only [h1, h1b, if_false] at hab
            by_cases h2 : y.toNat < z.toNat
            · have : x.toNat < z.toNat := by omega
              simp [this]
            · by_cases h3 : z.toNat < y.toNat
              · simp [h2, h3] at hbc
              · simp only [h2, h3, if_false] at hbc
                have e1 : ¬ x.toNat < z.toNat := by omega
                have e2 : ¬ z.toNat < x.toNat := by omega
                simp only [e1, e2, if_false]
                exact ih ys zs hab hbc

theorem char_eq_of_toNat_eq (a b : Char) (h : a.toNat = b.toNat) : a = b := by
  rw [← Char.ofNat_toNat a, ← Char.ofNat_toNat b, h]

theorem strLess_total : ∀ (a b : Str), strLess a b = false → strLess b a = false → a = b := by
  intro a
  induction a with
  | nil =>
    intro b hab _
    cases b with
    | nil => rfl
    | cons y ys => simp [strLess] at hab
  | cons x xs ih =>
    intro b hab hba
    cases b with
    | nil => simp [strLess] at hba
    | cons y ys =>
      simp only [strLess] at hab hba
      by_cases h1 : x.toNat < y.toNat
      · simp [h1] at hab
      · by_cases h2 : y.toNat < x.toNat
        · simp [h2] at hba
        · simp only [h1, h2, if_false] at hab hba
          have hxy : x = y := char_eq_of_toNat_eq x y (by omega)
          rw [hxy, ih ys hab hba]

theorem strLess_ne (a b : Str) (h : strLess a b = true) : a ≠ b := by
  intro hEq
  rw [hEq, strLess_irrefl] at h
  exact Bool.noConfusion h

theorem mapPushBack_lt (key v k0 : Str) (vs : List Str) (m : List (Str × List Str))
    (h : strLess key k0 = true) :
    mapPushBack key v ((k0, vs) :: m) = (key, [v]) :: (k0, vs) :: m := by
  simp [mapPushBack, h]

theorem mapPushBack_gt (key v k0 : Str) (vs : List Str) (m : List (Str × List Str))
    (h1 : strLess key k0 = false) (h2 : strLess k0 key = true) :
    mapPushBack key v ((k0, vs) :: m) = (k0, vs) :: mapPushBack key v m := by
  simp [mapPushBack, h1, h2]

theorem mapPushBack_eq (key v k0 : Str) (vs : List Str) (m : List (Str × List Str))
    (h1 : strLess key k0 = false) (h2 : strLess k0 key = false) :
    mapPushBack key v ((k0, vs) :: m) = (k0, vs ++ [v]) :: m := by
  simp [mapPushBack, h1, h2]

theorem keys_mapPushBack (key v : Str) (m : List (Str × List Str)) (k : Str) :
    k ∈ (mapPushBack key v m).map Prod.fst ↔ k = key ∨ k ∈ m.map Prod.fst := by
  induction m with
  | nil => simp [mapPushBack]
  | cons p m ih =>
    obtain ⟨k0, vs⟩ := p
    rcases h1 : strLess key k0 with _ | _
    · rcases h2 : strLess k0 key with _ | _
      · have hEq : key = k0 := strLess_total key k0 h1 h2
        rw [mapPushBack_eq key v k0 vs m h1 h2]
        simp only [List.map_cons, List.mem_cons, hEq]
        tauto
      · rw [mapPushBack_gt key v k0 vs m h1 h2]
        simp only [List.map_cons, List.mem_cons, ih]
        tauto
    · rw [mapPushBack_lt key v k0 vs m h1]
      simp only [List.map_cons, List.mem_cons]

theorem keysAscending_mapPushBack (key v : Str) (m : List (Str × List Str))
    (h : KeysAscending m) : KeysAscending (mapPushBack key v m) := by
  induction m with
  | nil => simp [mapPushBack, KeysAscending]
  | cons p m ih =>
    obtain ⟨k0, vs⟩ := p
    unfold KeysAscending at h ih ⊢
    rw [List.map_cons, List.pairwise_cons] at h
    rcases h1 : strLess key k0 with _ | _
    · rcases h2 : strLess k0 key with _ | _
      · rw [mapPushBack_eq key v k0 vs m h1 h2, List.map_cons, List.pairwise_cons]
        exact h
      · rw [mapPushBack_gt key v k0 vs m h1 h2, List.map_cons, List.pairwise_cons]
        refine ⟨?_, ih h.2⟩
        intro k hk
        rcases (keys_mapPushBack key v m k).1 hk with rfl | hk
        · exact h2
        · exact h.1 k hk
    · rw [mapPushBack_lt key v k0 vs m h1, List.map_cons, List.pairwise_cons, List.map_cons,
        List.pairwise_cons]
      refine ⟨?_, h.1, h.2⟩
      intro k hk
      rw [List.mem_cons] at hk
      rcases hk with rfl | hk
      · exact h1
      · exact strLess_trans key k0 k h1 (h.1 k hk)

theorem mapFind_eq_none (key : Str) (m : List (Str × List Str))
    (h : key ∉ m.map Prod.fst) : mapFind key m = none := by
  induction m with
  | nil => rfl
  | cons p m ih =>
    obtain ⟨k0, vs⟩ := p
    rw [List.map_cons, List.mem_cons, not_or] at h
    simp only [mapFind, if_neg (Ne.symm h.1)]
    exact ih h.2

theorem not_mem_keys_of_lt (key : Str) (m : List (Str × List Str))
    (h : ∀ k ∈ m.map Prod.fst, strLess key k = true) : key ∉ m.map Prod.fst :=
  fun hk => strLess_ne key key (h key hk) rfl

theorem mapFind_mapPushBack (key v : Str) (m : List (Str × List Str)) (h : KeysAscending m)
    (k : Str) :
    mapFind k (mapPushBack key v m)
      = if k = key then some ((mapFind key m).getD [] ++ [v]) else mapFind k m := by
  induction m with
  | nil =>
    by_cases hk : k = key
    · simp [mapPushBack, mapFind, hk]
    · simp [mapPushBack, mapFind, hk, Ne.symm hk]
  | cons p m ih =>
    obtain ⟨k0, vs⟩ := p
    unfold KeysAscending at h ih
    rw [List.map_cons, List.pairwise_cons] at h
    rcases h1 : strLess key k0 with _ | _
    · rcases h2 : strLess k0 key with _ | _
      · have hEq : key = k0 := strLess_total key k0 h1 h2
        rw [mapPushBack_eq key v k0 vs m h1 h2]
        by_cases hk : k = key
        · simp [mapFind, hk, hEq]
        · have hk0 : k0 ≠ k := fun e => hk (e ▸ hEq.symm)
          simp [mapFind, hk, hk0]
      · have hne : k0 ≠ key := strLess_ne k0 key h2
        rw [mapPushBack_gt key v k0 vs m h1 h2]
        by_cases hk0 : k0 = k
        · have hk : k ≠ key := hk0 ▸ hne
          simp [mapFind, hk0, hk]
        · simp only [mapFind, hk0, hne, if_false]
          exact ih h.2
    · have hnot : key ∉ ((k0, vs) :: m).map Prod.fst := by
        apply not_mem_keys_of_lt
        intro k1 hk1
        rw [List.map_cons, List.mem_cons] at hk1
        rcases hk1 with rfl | hk1
        · exact h1
        · exact strLess_trans key k0 k1 h1 (h.1 k1 hk1)
      rw [mapPushBack_lt key v k0 vs m h1, mapFind_eq_none key _ hnot]
      by_cases hk : k = key
      · simp [mapFind, hk]
      · simp [mapFind, hk, Ne.symm hk]

theorem mem_iff_mapFind (m : List (Str × List Str)) (h : KeysAscending m) (k : Str)
    (vs : List Str) : (k, vs) ∈ m ↔ mapFind k m = some vs := by
  induction m with
  | nil => simp [mapFind]
  | cons p m ih =>
    obtain ⟨k0, vs0⟩ := p
    unfold KeysAscending at h ih
    rw [List.map_cons, List.pairwise_cons] at h
    rw [List.mem_cons]
    by_cases hk0 : k0 = k
    · subst hk0
      have hnot : ∀ ws, (k0, ws) ∉ m := by
        intro ws hmem
        exact not_mem_keys_of_lt k0 m h.1 (List.mem_map.2 ⟨(k0, ws), hmem, rfl⟩)
      simp only [mapFind, if_true, Option.some.injEq, Prod.mk.injEq, true_and]
      constructor
      · rintro (hEq | hmem)
        · exact hEq.symm
        · exact absurd hmem (hnot vs)
      · intro hEq
        exact Or.inl hEq.symm
    · simp only [mapFind, hk0, if_false, Prod.mk.injEq]
      rw [← ih h.2]
      constructor
      · rintro (⟨hEq, _⟩ | hmem)
        · exact absurd hEq.symm hk0
        · exact hmem
      · intro hmem
        exact Or.inr hmem

theorem idsWithReason_cons (reason : Str) (r : UserResult) (rs : List UserResult) :
    idsWithReason reason (r :: rs)
      = if r.error = reason then r.id :: idsWithReason reason rs
        else idsWithReason reason rs := by
  by_cases h : r.error = reason <;> simp [idsWithReason, List.filter_cons, h]

theorem idsWithReason_eq_nil (reason : Str) (rs : List UserResult) :
    idsWithReason reason rs = [] ↔ ¬ ∃ r ∈ rs, r.error = reason := by
  simp [idsWithReason, List.filter_eq_nil_iff]

/-- The map after the clustering loop: keys still ascending, and under each key
the vector it had before followed by the ids that failed with that reason, in
the order of the sequence. -/
theorem clusterErrors_spec (rs : List UserResult) :
    ∀ m : List (Str × List Str), KeysAscending m →
      KeysAscending (clusterErrors rs m) ∧
      ∀ k, mapFind k (clusterErrors rs m)
        = if idsWithReason k rs = [] then mapFind k m
          else some ((mapFind k m).getD [] ++ idsWithReason k rs) := by
  induction rs with
  | nil =>
    intro m h
    exact ⟨h, fun k => by simp [clusterErrors, idsWithReason]⟩
  | cons r rs ih =>
    intro m h
    obtain ⟨i1, i2⟩ := ih (mapPushBack r.error r.id m) (keysAscending_mapPushBack _ _ m h)
    refine ⟨i1, fun k => ?_⟩
    rw [clusterErrors, i2 k, mapFind_mapPushBack r.error r.id m h k, idsWithReason_cons]
    by_cases hk : k = r.error
    · subst hk
      by_cases hn : idsWithReason r.error rs = []
      · simp [hn]
      · simp [hn]
    · have hk1 : r.error ≠ k := Ne.symm hk
      simp [hk, hk1]

theorem sameErrorLoop_eq_true (commonError : Str) (rs : List UserResult) :
    sameErrorLoop commonError rs = true ↔ ∀ r ∈ rs, r.error = commonError := by
  induction rs with
  | nil => simp [sameErrorLoop]
  | cons r rs ih =>
    by_cases h : r.error = commonError
    · simp [sameErrorLoop, h, ih]
    · simp [sameErrorLoop, h]

/-- C10, on the code: for the failures `(A, "y")` then `(B, "x")` the clustered
report lists the reason `x` before the reason `y`, although `y` appeared
first. -/
theorem clustered_order_not_first_seen :
    report false false
        [{ id := "A".toList, error := "y".toList }, { id := "B".toList, error := "x".toList }] []
      = Report.clustered [("x".toList, ["B".toList]), ("y".toList, ["A".toList])] ∧
    firstSeenReasons
        [{ id := "A".toList, error := "y".toList }, { id := "B".toList, error := "x".toList }]
      = ["y".toList, "x".toList] ∧
    (clusterErrors
        [{ id := "A".toList, error := "y".toList }, { id := "B".toList, error := "x".toList }]
        []).map Prod.fst
      ≠ firstSeenReasons
        [{ id := "A".toList, error := "y".toList }, { id := "B".toList, error := "x".toList }] := by
  decide

/-- C10 as amended: when the loop ended with no added user and failures with at
least two distinct reasons, and the "no valid data rows" branch is not taken,
the report is the clustered one. Its clusters are listed in strictly ascending
order of the reason strings (the key order of `std::map`), so each distinct
reason is listed once; and a pair (reason, ids) is listed exactly when some
failure has that reason and ids are the ids of the failures with that reason
in their original order. -/
theorem report_clustered (properFormat hasValidDataRow : Bool) (results : List UserResult)
    (hgate : (properFormat && !hasValidDataRow) = false)
    (hdiff : ∃ r1 ∈ results, ∃ r2 ∈ results, r1.error ≠ r2.error) :
    report properFormat hasValidDataRow results []
        = Report.clustered (clusterErrors results []) ∧
      KeysAscending (clusterErrors results []) ∧
      ∀ reason ids, (reason, ids) ∈ clusterErrors results [] ↔
        ((∃ r ∈ results, r.error = reason) ∧ ids = idsWithReason reason results) := by
  obtain ⟨hasc, hfind⟩ := clusterErrors_spec results [] (by simp [KeysAscending])
  refine ⟨?_, hasc, ?_⟩
  · obtain ⟨r1, hr1, r2, hr2, hne⟩ := hdiff
    cases results with
    | nil => simp at hr1
    | cons r0 rs =>
      have hsame : sameErrorLoop r0.error (r0 :: rs) = false := by
        rcases hs : sameErrorLoop r0.error (r0 :: rs) with _ | _
        · rfl
        · rw [sameErrorLoop_eq_true] at hs
          exact absurd ((hs r1 hr1).trans (hs r2 hr2).symm) hne
      simp [report, hgate, hsame]
  · intro reason ids
    rw [mem_iff_mapFind _ hasc, hfind reason]
    by_cases hn : idsWithReason reason results = []
    · have hno := (idsWithReason_eq_nil reason results).1 hn
      simp [hn, mapFind, hno]
    · have hex : ∃ r ∈ results, r.error = reason := by
        by_contra hc
        exact hn ((idsWithReason_eq_nil reason results).2 hc)
      simp only [hn, if_false, mapFind, Option.getD_none, List.nil_append, Option.some.injEq]
      constructor
      · intro h
        exact ⟨hex, h.symm⟩
      · intro h
        exact h.2.symm

theorem report_clustered_witness :
    (false && !false) = false ∧
      report false false
          [{ id := "A".toList, error := "x".toList }, { id := "B".toList, error := "y".toList },
           { id := "C".toList, error := "x".toList }] []
        = Report.clustered
            (clusterErrors
              [{ id := "A".toList, error := "x".toList },
               { id := "B".toList, error := "y".toList },
               { id := "C".toList, error := "x".toList }] []) :=
  ⟨rfl,
    (report_clustered false false
      [{ id := "A".toList, error := "x".toList }, { id := "B".toList, error := "y".toList },
       { id := "C".toList, error := "x".toList }] rfl
      ⟨{ id := "A".toList, error := "x".toList }, by simp,
        { id := "B".toList, error := "y".toList }, by simp, by decide⟩).1⟩

/-- The clustering example of the specification: the failures `(A, "x")`,
`(B, "y")`, `(C, "x")` are grouped as `x` with `A, C` and `y` with `B`. -/
theorem clusterErrors_example :
    clusterErrors
        [{ id := "A".toList, error := "x".toList }, { id := "B".toList, error := "y".toList },
         { id := "C".toList, error := "x".toList }] []
      = [("x".toList, ["A".toList, "C".toList]), ("y".toList, ["B".toList])] := by
  decide

/-! ## C11: the report of a mixed batch -/

theorem addUser_added_flag {σ : Type} (L : Ldap σ) (basePath : Str) (st : LoopState σ)
    (id fullName phoneNumber email department jobDescription : Str)
    (h : st.addedUsers ≠ [] → st.hasValidDataRow = true) :
    (addUser L basePath st id fullName phoneNumber email department jobDescription).addedUsers
        ≠ [] →
      (addUser L basePath st id fullName phoneNumber email department
        jobDescription).hasValidDataRow = true := by
  by_cases he : (userExists L st.ldap (userDN basePath id)).2 = true
  · simpa [addUser, he] using h
  · by_cases ha : (addLDAPUser L (userExists L st.ldap (userDN basePath id)).1 id fullName
        phoneNumber email department jobDescription).2 = LDAP_SUCCESS
    · simp [addUser, he, ha]
    · simpa [addUser, he, ha] using h

theorem loopBodyTok_added_flag {σ : Type} (L : Ldap σ) (basePath : Str) (st : LoopState σ)
    (line : Str) (h : st.addedUsers ≠ [] → st.hasValidDataRow = true) :
    (loopBodyTok L basePath st line).2.addedUsers ≠ [] →
      (loopBodyTok L basePath st line).2.hasValidDataRow = true := by
  unfold loopBodyTok
  split
  · split
    · exact h
    · exact h
  · split
    · exact addUser_added_flag L basePath st _ _ _ _ _ _ h
    · exact h

/-- Whenever the loop ends, on any lines, a non-empty `addedUsers` comes with
`hasValidDataRow` set. -/
theorem addUsersLoop_added_flag {σ : Type} (L : Ldap σ) (basePath : Str) (lines : List Str) :
    ∀ st : LoopState σ, (st.addedUsers ≠ [] → st.hasValidDataRow = true) →
      (addUsersLoop L basePath st lines).addedUsers ≠ [] →
      (addUsersLoop L basePath st lines).hasValidDataRow = true := by
  induction lines with
  | nil => intro st h; exact h
  | cons line rest ih =>
    intro st h
    have hb := loopBodyTok_added_flag L basePath st line h
    rw [← loopBody_eq_loopBodyTok] at hb
    unfold addUsersLoop
    split
    · exact hb
    · exact ih _ hb

/-- On any lines, with or without a parse error: when the loop ends with both a
failure and an added user, the report is the "some users couldn't be added"
one over `results` and `addedUsers` as they are. -/
theorem report_of_mixed {σ : Type} (L : Ldap σ) (basePath : Str) (ldap : σ)
    (lines : List Str)
    (hres : (addUsers L basePath ldap lines).results ≠ [])
    (hadd : (addUsers L basePath ldap lines).addedUsers ≠ []) :
    (addUsers L basePath ldap lines).report
      = Report.someNotAdded (addUsers L basePath ldap lines).results
          (addUsers L basePath ldap lines).addedUsers := by
  have hflag : (addUsers L basePath ldap lines).hasValidDataRow = true :=
    addUsersLoop_added_flag L basePath lines (LoopState.init ldap)
      (fun h => absurd rfl h) hadd
  unfold LoopState.report report
  rw [hflag]
  cases hr : (addUsers L basePath ldap lines).results with
  | nil => exact absurd hr hres
  | cons r0 rs =>
    cases ha : (addUsers L basePath ldap lines).addedUsers with
    | nil => exact absurd ha hadd
    | cons a as => simp

/-- C11: on a batch with the valid header whose data lines all pass
`isProperlyFormatted`, when the loop ends with at least one failure and at least
one added user, the report is the "some users couldn't be added" one: first the
entries of `results` (id and reason), then the ids of `addedUsers`. The two
listings hold the ids of the data lines that failed and of those that
succeeded, each in file order, every data line in exactly one of them. -/
theorem report_mixed_batch {σ : Type} (L : Ldap σ) (basePath : Str) (ldap : σ)
    (dataLines : List Str) (hwf : ∀ l ∈ dataLines, isProperlyFormatted l = true)
    (hres : (addUsers L basePath ldap (csvHeader :: dataLines)).results ≠ [])
    (hadd : (addUsers L basePath ldap (csvHeader :: dataLines)).addedUsers ≠ []) :
    (addUsers L basePath ldap (csvHeader :: dataLines)).report
        = Report.someNotAdded (addUsers L basePath ldap (csvHeader :: dataLines)).results
            (addUsers L basePath ldap (csvHeader :: dataLines)).addedUsers ∧
      ∃ ok : List Bool, ok.length = dataLines.length ∧
        (addUsers L basePath ldap (csvHeader :: dataLines)).results.map UserResult.id
          = failedIds ((dataLines.map recordId).zip ok) ∧
        (addUsers L basePath ldap (csvHeader :: dataLines)).addedUsers
          = succeededIds ((dataLines.map recordId).zip ok) := by
  refine ⟨report_of_mixed L basePath ldap _ hres hadd, ?_⟩
  rw [addUsers_header]
  obtain ⟨_, _, _, _, _, ok, h6, h7, h8⟩ :=
    addUsersLoop_wellFormed L basePath dataLines (LoopState.pastHeader ldap) rfl hwf
  exact ⟨ok, h6, by simpa [LoopState.pastHeader] using h8,
    by simpa [LoopState.pastHeader] using h7⟩

theorem report_mixed_batch_witness :
    (∀ l ∈ [lineU1, lineU2], isProperlyFormatted l = true) ∧
      (addUsers listDir main_basePath [userDN main_basePath "u2".toList]
          (csvHeader :: [lineU1, lineU2])).report
        = Report.someNotAdded
            (addUsers listDir main_basePath [userDN main_basePath "u2".toList]
              (csvHeader :: [lineU1, lineU2])).results
            (addUsers listDir main_basePath [userDN main_basePath "u2".toList]
              (csvHeader :: [lineU1, lineU2])).addedUsers :=
  ⟨sampleLines_wellFormed,
    (report_mixed_batch listDir main_basePath [userDN main_basePath "u2".toList]
      [lineU1, lineU2] sampleLines_wellFormed
      (by rw [addUsers_eq_addUsersLoopTok]; decide)
      (by rw [addUsers_eq_addUsersLoopTok]; decide)).1⟩

/-- The mixed batch of the witness: `u1` is added, `u2` fails as existing, and
the report lists the failure of `u2` and then the added `u1`. -/
theorem report_mixed_example :
    (addUsers listDir main_basePath [userDN main_basePath "u2".toList]
        (csvHeader :: [lineU1, lineU2])).report
      = Report.someNotAdded [UserResult.mk "u2".toList userAlreadyExists] ["u1".toList] := by
  rw [addUsers_eq_addUsersLoopTok]
  decide

/-! ## C12: a file of the header alone -/

/-- C12: on the file that holds the valid header line and nothing else (with or
without a final newline), whatever the directory, the loop calls no directory
helper, leaves the directory as it was, records no failure and no added user,
writes neither parse error, and the report is the "no valid data rows" one. -/
theorem header_only_file {σ : Type} (L : Ldap σ) (basePath : Str) (ldap : σ) :
    addUsersFromFile L basePath ldap (csvHeader ++ ['\n'])
        = addUsersFromFile L basePath ldap csvHeader ∧
      (addUsersFromFile L basePath ldap csvHeader).calls = [] ∧
      (addUsersFromFile L basePath ldap csvHeader).ldap = ldap ∧
      (addUsersFromFile L basePath ldap csvHeader).results = [] ∧
      (addUsersFromFile L basePath ldap csvHeader).addedUsers = [] ∧
      (addUsersFromFile L basePath ldap csvHeader).cerr = [] ∧
      (addUsersFromFile L basePath ldap csvHeader).properFormat = true ∧
      (addUsersFromFile L basePath ldap csvHeader).report = Report.noValidDataRows := by
  have h1 : tokens '\n' (csvHeader ++ ['\n']) = [csvHeader] := by decide
  have h2 : tokens '\n' csvHeader = [csvHeader] := by decide
  rw [addUsersFromFile_eq, addUsersFromFile_eq, h1, h2, addUsers_header]
  exact ⟨rfl, rfl, rfl, rfl, rfl, rfl, rfl, rfl⟩

/-! ## C13: the DN checked and the DN created -/

theorem tokensAux_forall (P : Char → Prop) (d : Char) (buf : Str) :
    ∀ cur : Str, (∀ c ∈ cur, P c) → (∀ c ∈ buf, c ≠ d → P c) →
      ∀ t ∈ tokensAux d cur buf, ∀ c ∈ t, P c := by
  induction buf with
  | nil =>
    intro cur hcur _ t ht
    by_cases hc : cur = []
    · simp [tokensAux, hc] at ht
    · simp only [tokensAux, hc, if_false, List.mem_singleton] at ht
      rw [ht]
      exact hcur
  | cons x xs ih =>
    intro cur hcur hbuf t ht
    have hxs : ∀ c ∈ xs, c ≠ d → P c := fun c hc => hbuf c (List.mem_cons_of_mem _ hc)
    by_cases hx : x = d
    · simp only [tokensAux, hx, if_true, List.mem_cons] at ht
      rcases ht with rfl | ht
      · exact hcur
      · exact ih [] (fun c hc => by simp at hc) hxs t ht
    · simp only [tokensAux, hx, if_false] at ht
      refine ih (cur ++ [x]) ?_ hxs t ht
      intro c hc
      rw [List.mem_append, List.mem_singleton] at hc
      rcases hc with hc | rfl
      · exact hcur c hc
      · exact hbuf c (List.mem_cons_self _ _) hx

/-- A token holds no delimiter. -/
theorem tokens_no_delim (d : Char) (buf t : Str) (ht : t ∈ tokens d buf) : d ∉ t := by
  intro hd
  exact tokensAux_forall (fun c => c ≠ d) d buf [] (fun c hc => by simp at hc)
    (fun c _ hne => hne) t ht d hd rfl

/-- A token of a string without the character `x` is without it too. -/
theorem tokens_not_mem (d x : Char) (buf t : Str) (hx : x ∉ buf) (ht : t ∈ tokens d buf) :
    x ∉ t := by
  intro hd
  exact tokensAux_forall (fun c => c ≠ x) d buf [] (fun c hc => by simp at hc)
    (fun c hc _ hEq => hx (hEq ▸ hc)) t ht x hd rfl

theorem takeUntil_of_not_mem (d : Char) (buf : Str) (h : d ∉ buf) :
    takeUntil d buf = (buf, none) := by
  induction buf with
  | nil => rfl
  | cons c cs ih =>
    rw [List.mem_cons, not_or] at h
    have hc : c ≠ d := fun e => h.1 e.symm
    simp [takeUntil, hc, ih h.2]

/-- The split of the full name made by the stream operations is the split the
specification words, on a full name without a newline. -/
theorem splitFullName_eq (fullName : Str) (h : '\n' ∉ fullName) :
    splitFullName fullName = (givenNameOf fullName, surnameOf fullName) := by
  unfold splitFullName givenNameOf surnameOf extractWord
  rcases h1 : fullName.dropWhile isSpace with _ | ⟨c, cs⟩
  · simp [getline, IStream.good, IStream.ofStr, h1]
  · have hs1 : c :: cs <:+ fullName := h1 ▸ List.dropWhile_suffix isSpace
    rcases h2 : (c :: cs).dropWhile (fun x => !isSpace x) with _ | ⟨r, rs⟩
    · simp [getline, IStream.good, IStream.ofStr, h1, h2]
    · have hs2 : r :: rs <:+ c :: cs := h2 ▸ List.dropWhile_suffix _
      have hnl : '\n' ∉ r :: rs := fun hm => h (List.IsSuffix.mem (List.IsSuffix.mem hm hs2) hs1)
      simp [getline, IStream.good, IStream.ofStr, h1, h2, takeUntil_of_not_mem _ _ hnl]

theorem not_mem_givenNameOf (x : Char) (fullName : Str) (h : x ∉ fullName) :
    x ∉ givenNameOf fullName :=
  fun hm => h (List.IsSuffix.mem (List.IsPrefix.mem hm (List.takeWhile_prefix _))
    (List.dropWhile_suffix _))

theorem not_mem_surnameOf (x : Char) (fullName : Str) (h : x ∉ fullName) :
    x ∉ surnameOf fullName :=
  fun hm => h (List.IsSuffix.mem (List.IsSuffix.mem hm (List.dropWhile_suffix _))
    (List.dropWhile_suffix _))

theorem not_mem_newUserDN (id : Str) (h : NUL ∉ id) : NUL ∉ newUserDN id := by
  unfold newUserDN
  rw [List.mem_append, List.mem_append, not_or, not_or]
  exact ⟨⟨by decide, h⟩, by decide⟩

/-- C14, on the code: the line whose id is `u`, NUL, `x` is a line of a file
that passes `isProperlyFormatted`; for its record `addLDAPUser` submits the DN
`cn=u` and the attribute cn = `u`, not the id, so the attributes submitted are
not those of the specification, and the directory then holds `cn=u`. -/
theorem nul_byte_cuts_submitted_values :
    lineNul ∈ tokens '\n' (csvHeader ++ '\n' :: lineNul) ∧
      isProperlyFormatted lineNul = true ∧
      extractFields lineNul
        = some (idNul, "Ann Lee".toList, "555-0101".toList, "ann@example.org".toList,
            "Sales".toList, "Clerk".toList) ∧
      c_str (newUserDN idNul) = "cn=u".toList ∧
      addLDAPUserMods idNul "Ann Lee".toList "555-0101".toList "ann@example.org".toList
          "Sales".toList "Clerk".toList
        = recordEntry "u".toList "Ann Lee".toList "555-0101".toList "ann@example.org".toList
            "Sales".toList "Clerk".toList ∧
      addLDAPUserMods idNul "Ann Lee".toList "555-0101".toList "ann@example.org".toList
          "Sales".toList "Clerk".toList
        ≠ recordEntry idNul "Ann Lee".toList "555-0101".toList "ann@example.org".toList
            "Sales".toList "Clerk".toList ∧
      (addUsers listDir main_basePath [] [csvHeader, lineNul]).ldap = ["cn=u".toList] :=
  ⟨by decide, by rw [isProperlyFormatted_eq]; decide,
    extractFields_of_tokens lineNul _ _ _ _ _ _ [] rfl, by decide, by decide, by decide,
    by rw [addUsers_eq_addUsersLoopTok]; decide⟩

/-- C14 as amended: for a record extracted from a line of a file that passes
`isProperlyFormatted`, `addLDAPUser` makes one `ldap_add_ext_sA` call with
exactly eight attributes, each added with `LDAP_MOD_ADD`: cn, sn, givenName,
mail, ou, telephoneNumber and description hold the C string (the characters
before the first NUL) of the id, the surname, the given name, the email, the
department, the phone number and the job description, objectClass holds
inetOrgPerson, organizationalPerson, person, top, and the DN is the C string
of `newUserDN id`; the given name is the first whitespace-delimited token of
the full name and the surname the remainder after it. When the line holds no
NUL, the call is at `newUserDN id` with the attributes of the specification:
cn = id, sn = surname, givenName = given name, mail = email, ou = department,
telephoneNumber = phoneNumber, description = jobDescription. -/
theorem addLDAPUser_entry {σ : Type} (L : Ldap σ) (ldap : σ) (content line : Str)
    (hline : line ∈ tokens '\n' content) (hwf : isProperlyFormatted line = true)
    (id fullName phoneNumber email department jobDescription : Str)
    (hx : extractFields line
      = some (id, fullName, phoneNumber, email, department, jobDescription)) :
    addLDAPUser L ldap id fullName phoneNumber email department jobDescription
        = L.ldap_add_ext_sA ldap (c_str (newUserDN id))
          [LDAPMod.mk LDAP_MOD_ADD "cn".toList [c_str id],
           LDAPMod.mk LDAP_MOD_ADD "sn".toList [c_str (surnameOf fullName)],
           LDAPMod.mk LDAP_MOD_ADD "givenName".toList [c_str (givenNameOf fullName)],
           LDAPMod.mk LDAP_MOD_ADD "mail".toList [c_str email],
           LDAPMod.mk LDAP_MOD_ADD "objectClass".toList
             ["inetOrgPerson".toList, "organizationalPerson".toList, "person".toList,
              "top".toList],
           LDAPMod.mk LDAP_MOD_ADD "ou".toList [c_str department],
           LDAPMod.mk LDAP_MOD_ADD "telephoneNumber".toList [c_str phoneNumber],
           LDAPMod.mk LDAP_MOD_ADD "description".toList [c_str jobDescription]] ∧
      (NUL ∉ line →
        addLDAPUser L ldap id fullName phoneNumber email department jobDescription
          = L.ldap_add_ext_sA ldap (newUserDN id)
              (recordEntry id fullName phoneNumber email department jobDescription)) := by
  obtain ⟨a, b, c, d, e, f, ht, hx1⟩ := extractFields_of_isProperlyFormatted line hwf
  rw [hx1, Option.some.injEq, Prod.mk.injEq, Prod.mk.injEq, Prod.mk.injEq, Prod.mk.injEq,
    Prod.mk.injEq] at hx
  obtain ⟨rfl, rfl, rfl, rfl, rfl, rfl⟩ := hx
  have hnl_line : '\n' ∉ line := tokens_no_delim '\n' content line hline
  have hnl : '\n' ∉ b :=
    tokens_not_mem ',' '\n' line b hnl_line (by rw [ht]; simp)
  have hcut : addLDAPUser L ldap a b c d e f
      = L.ldap_add_ext_sA ldap (c_str (newUserDN a))
        [LDAPMod.mk LDAP_MOD_ADD "cn".toList [c_str a],
         LDAPMod.mk LDAP_MOD_ADD "sn".toList [c_str (surnameOf b)],
         LDAPMod.mk LDAP_MOD_ADD "givenName".toList [c_str (givenNameOf b)],
         LDAPMod.mk LDAP_MOD_ADD "mail".toList [c_str d],
         LDAPMod.mk LDAP_MOD_ADD "objectClass".toList
           ["inetOrgPerson".toList, "organizationalPerson".toList, "person".toList,
            "top".toList],
         LDAPMod.mk LDAP_MOD_ADD "ou".toList [c_str e],
         LDAPMod.mk LDAP_MOD_ADD "telephoneNumber".toList [c_str c],
         LDAPMod.mk LDAP_MOD_ADD "description".toList [c_str f]] := by
    simp only [addLDAPUser, addLDAPUserMods, splitFullName_eq b hnl]
  refine ⟨hcut, fun hnul => ?_⟩
  have hfield : ∀ t ∈ tokens ',' line, NUL ∉ t :=
    fun t ht1 => tokens_not_mem ',' NUL line t hnul ht1
  have ha : NUL ∉ a := hfield a (by rw [ht]; simp)
  have hb : NUL ∉ b := hfield b (by rw [ht]; simp)
  have hc : NUL ∉ c := hfield c (by rw [ht]; simp)
  have hd : NUL ∉ d := hfield d (by rw [ht]; simp)
  have he : NUL ∉ e := hfield e (by rw [ht]; simp)
  have hf : NUL ∉ f := hfield f (by rw [ht]; simp)
  rw [hcut, c_str_of_not_mem _ (not_mem_newUserDN a ha), c_str_of_not_mem a ha,
    c_str_of_not_mem _ (not_mem_surnameOf NUL b hb),
    c_str_of_not_mem _ (not_mem_givenNameOf NUL b hb), c_str_of_not_mem d hd,
    c_str_of_not_mem e he, c_str_of_not_mem c hc, c_str_of_not_mem f hf]
  rfl

theorem addLDAPUser_entry_witness :
    lineU1 ∈ tokens '\n' (csvHeader ++ '\n' :: (lineU1 ++ ['\n'])) ∧
      isProperlyFormatted lineU1 = true ∧
      extractFields lineU1
        = some ("u1".toList, "Ann Lee".toList, "555-0101".toList, "ann@example.org".toList,
            "Sales".toList, "Clerk".toList) ∧
      NUL ∉ lineU1 ∧
      addLDAPUser listDir [] "u1".toList "Ann Lee".toList "555-0101".toList
          "ann@example.org".toList "Sales".toList "Clerk".toList
        = listDir.ldap_add_ext_sA [] (newUserDN "u1".toList)
            (recordEntry "u1".toList "Ann Lee".toList "555-0101".toList
              "ann@example.org".toList "Sales".toList "Clerk".toList) :=
  ⟨by decide, sampleLines_wellFormed lineU1 (by simp),
    extractFields_of_tokens lineU1 _ _ _ _ _ _ [] rfl, by decide,
    (addLDAPUser_entry listDir [] (csvHeader ++ '\n' :: (lineU1 ++ ['\n'])) lineU1 (by decide)
      (sampleLines_wellFormed lineU1 (by simp)) _ _ _ _ _ _
      (extractFields_of_tokens lineU1 _ _ _ _ _ _ [] rfl)).2 (by decide)⟩

/-- The two names of "Ann Lee": the given name is `Ann`, the surname is the
remainder ` Lee`, with the blank that follows the given name; a full name of
one word has the empty surname. -/
theorem names_example :
    givenNameOf "Ann Lee".toList = "Ann".toList ∧ surnameOf "Ann Lee".toList = " Lee".toList ∧
      givenNameOf "Cher".toList = "Cher".toList ∧ surnameOf "Cher".toList = [] := by
  decide

/-! ## C15: the id submitted to the directory -/

theorem takeUntil_fst (d : Char) (buf : Str) :
    (takeUntil d buf).1 = buf.takeWhile (fun c => c ≠ d) := by
  induction buf with
  | nil => rfl
  | cons c cs ih =>
    by_cases hc : c = d
    · simp [takeUntil, hc, List.takeWhile_cons]
    · simp [takeUntil, hc, List.takeWhile_cons, ih]

/-- The first token of a line is its first comma-separated field. -/
theorem tokens_head (line a : Str) (rest : List Str) (h : tokens ',' line = a :: rest) :
    a = firstField line := by
  unfold tokens at h
  rw [tokensAux_takeUntil] at h
  unfold firstField
  rw [← takeUntil_fst]
  rcases hres : takeUntil ',' line with ⟨tok, _ | more⟩
  · rw [hres] at h
    by_cases ht : tok = []
    · simp [ht] at h
    · simp only [List.nil_append, ht, if_false, List.cons.injEq] at h
      exact h.1.symm
  · rw [hres] at h
    simp only [List.nil_append, List.cons.injEq] at h
    exact h.1.symm

/-- C15, on the code: the line `,Ann Lee,555-0101,ann@example.org,Sales,Clerk`,
whose first field is empty, passes `isProperlyFormatted`; `userExists` is called
for `cn=,ou=users,o=c_plusplus_project` and `addLDAPUser` is called with the
empty id, which is recorded as added. -/
theorem empty_id_reaches_directory :
    isProperlyFormatted lineNoId = true ∧ firstField lineNoId = [] ∧
      (addUsers listDir main_basePath [] [csvHeader, lineNoId]).calls
        = [DirCall.userExists "cn=,ou=users,o=c_plusplus_project".toList,
           DirCall.addLDAPUser [] "Ann Lee".toList "555-0101".toList "ann@example.org".toList
             "Sales".toList "Clerk".toList] ∧
      (addUsers listDir main_basePath [] [csvHeader, lineNoId]).addedUsers = [[]] := by
  rw [isProperlyFormatted_eq, addUsers_eq_addUsersLoopTok]
  decide

/-- C15 as amended: one iteration on a data line that passes
`isProperlyFormatted`, the header being read. The id of the record is the first
comma-separated field of the line as it is, empty or not, and `userExists` is
called once, for the DN built from that field; the loop goes on. When
`userExists` answers false, `addLDAPUser` is called once, with that field as
id. -/
theorem loopBody_submits_first_field {σ : Type} (L : Ldap σ) (basePath : Str)
    (st : LoopState σ) (line : Str) (h : st.headerChecked = true)
    (hwf : isProperlyFormatted line = true) :
    recordId line = firstField line ∧
      (loopBody L basePath st line).1 = false ∧
      userExistsCalls (loopBody L basePath st line).2.calls
        = userExistsCalls st.calls ++ [userDN basePath (firstField line)] ∧
      ((userExists L st.ldap (userDN basePath (firstField line))).2 = false →
        addLDAPUserCalls (loopBody L basePath st line).2.calls
          = addLDAPUserCalls st.calls ++ [firstField line]) := by
  obtain ⟨a, b, c, d, e, f, ht, _⟩ := extractFields_of_isProperlyFormatted line hwf
  have hid := recordId_of_tokens line a b c d e f ht
  have hfirst := tokens_head line a _ ht
  rw [loopBody_record L basePath st line a b c d e f h ht, hid, ← hfirst]
  refine ⟨rfl, rfl, (addUser_step L basePath st a b c d e f).2.2.2.1, fun he => ?_⟩
  by_cases ha : (addLDAPUser L (userExists L st.ldap (userDN basePath a)).1 a b c d e f).2
      = LDAP_SUCCESS <;>
    simp [addUser, he, ha, addLDAPUserCalls_append, addLDAPUserCalls]

theorem loopBody_submits_first_field_witness :
    isProperlyFormatted lineNoId = true ∧ firstField lineNoId = [] ∧
      userExistsCalls
          (loopBody listDir main_basePath (LoopState.pastHeader ([] : List Str)) lineNoId).2.calls
        = userExistsCalls (LoopState.pastHeader ([] : List Str)).calls
            ++ [userDN main_basePath (firstField lineNoId)] :=
  ⟨by rw [isProperlyFormatted_eq]; decide, by decide,
    (loopBody_submits_first_field listDir main_basePath (LoopState.pastHeader ([] : List Str))
      lineNoId rfl (by rw [isProperlyFormatted_eq]; decide)).2.2.1⟩

/-! ## C16: the code returned by `deleteAllLDAPUsers` -/

/-- After the loop over a non-empty list of entries, `rc` is the return code of
the delete of the last entry, whatever the earlier deletes returned. -/
theorem deleteEntries_rc_last {σ : Type} (L : Ldap σ) (pre : List Str) (last : Str) :
    ∀ (ldap : σ) (rc : Int) (failed : List Str),
      (deleteEntries L ldap rc failed (pre ++ [last])).2.1
        = (L.ldap_delete_ext_sA (deleteEntries L ldap rc failed pre).1 last).2 := by
  induction pre with
  | nil =>
    intro ldap rc failed
    by_cases hd : (L.ldap_delete_ext_sA ldap last).2 = LDAP_SUCCESS <;>
      simp [deleteEntries, hd]
  | cons dn more ih =>
    intro ldap rc failed
    by_cases hd : (L.ldap_delete_ext_sA ldap dn).2 = LDAP_SUCCESS
    · simp only [List.cons_append, deleteEntries, hd, ne_eq, not_true_eq_false, if_false]
      exact ih _ _ _
    · simp only [List.cons_append, deleteEntries, hd, ne_eq, not_false_eq_true, if_true]
      exact ih _ _ _

/-- C16, on the code: over a directory holding the entries of `u1` and `u2`, the
first of which cannot be deleted, `deleteAllLDAPUsers` returns `LDAP_SUCCESS`
although the delete of `u1` returned code 50: that delete is reported as failed,
the entry of `u1` is still there, and `rc` was overwritten by the successful
delete of `u2`. -/
theorem deleteAllLDAPUsers_hides_failure :
    ((lockDir (newUserDN "u1".toList)).ldap_delete_ext_sA
        [newUserDN "u1".toList, newUserDN "u2".toList] (newUserDN "u1".toList)).2 = 50 ∧
      deleteAllLDAPUsers (lockDir (newUserDN "u1".toList))
          [newUserDN "u1".toList, newUserDN "u2".toList] main_basePath
        = ([newUserDN "u1".toList], LDAP_SUCCESS, [newUserDN "u1".toList]) := by
  decide

end LdapConsole
